import Mathlib

/-!
# Verification of the Artisty gallery-assistant backend

A shallow embedding of the deterministic core of the Artisty backend
(`backend/app.py`, `backend/agents.py`, `backend/utils.py`, `backend/main.py`,
`backend/lambda_function.py`, `backend/lambda/utils.py`).

Python strings are modelled as `List Char`; the fragments of the Python string
library the code uses (`strip`, `lower`, `split`, `startswith`, substring `in`,
`replace`, slicing) are defined below, and the pipeline functions are direct
translations of the source.  All calls to the hosted LLM are modelled as
oracles: an oracle value records the outcome of each LLM invocation
(success with the returned text, or an exception), and the pipeline functions
are deterministic functions of the oracle, so every property quantifies over
all possible LLM behaviours.
-/

namespace Artisty

/-! ### Python string primitives on `List Char` -/

/-- Python strings, modelled as lists of characters. -/
abbrev Str := List Char

/-- The Python whitespace class for `str.strip` / `str.split` (ASCII part):
space, tab, newline, carriage return, vertical tab, form feed. -/
def isPySpace (c : Char) : Bool :=
  c = ' ' || c = '\t' || c = '\n' || c = '\r' || c = '\x0b' || c = '\x0c'

/-- Python `str.lower` (ASCII range, which covers all data of this repository). -/
def pyLower (s : Str) : Str := s.map Char.toLower

/-- Python `str.upper` (ASCII range). -/
def pyUpper (s : Str) : Str := s.map Char.toUpper

/-- Python `str.lstrip()`. -/
def lstripPy (s : Str) : Str := s.dropWhile isPySpace

/-- Python `str.rstrip()`. -/
def rstripPy (s : Str) : Str := (s.reverse.dropWhile isPySpace).reverse

/-- Python `str.strip()`: whitespace removed from both ends. -/
def stripPy (s : Str) : Str := rstripPy (lstripPy s)

/-- Python `str.strip(chars)` for an explicit character set:
characters from `cs` removed from both ends. -/
def stripChars (cs : Str) (s : Str) : Str :=
  ((s.dropWhile (cs.contains ·)).reverse.dropWhile (cs.contains ·)).reverse

/-- Python substring test `needle in hay`. -/
def containsSub (hay needle : Str) : Bool :=
  match hay with
  | [] => needle.isPrefixOf ([] : Str)
  | _ :: t => needle.isPrefixOf hay || containsSub t needle

/-- Python `str.split(sep)` for a single-character separator
(keeps empty pieces, like Python). Accumulator-style so that it reduces
in the kernel. -/
def splitOnCharAux (sep : Char) : Str → Str → List Str
  | [], acc => [acc.reverse]
  | c :: rest, acc =>
      if c = sep then acc.reverse :: splitOnCharAux sep rest []
      else splitOnCharAux sep rest (c :: acc)

/-- Python `str.split(sep)` for a single-character separator. -/
def splitOnChar (sep : Char) (s : Str) : List Str := splitOnCharAux sep s []

/-- Python `str.split()` with no argument: split on whitespace runs,
discarding empty pieces. -/
def splitWsAux : Str → Str → List Str
  | [], acc => if acc = [] then [] else [acc.reverse]
  | c :: rest, acc =>
      if isPySpace c then
        if acc = [] then splitWsAux rest []
        else acc.reverse :: splitWsAux rest []
      else splitWsAux rest (c :: acc)

/-- Python `str.split()` with no argument. -/
def splitWs (s : Str) : List Str := splitWsAux s []

/-- Index of the first occurrence of `sep` in `s` (`str.find`, as an `Option`). -/
def findSubIdx (sep : Str) : Str → Option Nat
  | [] => if sep.isPrefixOf ([] : Str) then some 0 else none
  | l@(_ :: rest) =>
      if sep.isPrefixOf l then some 0 else (findSubIdx sep rest).map (· + 1)

/-- Python `s.split(sep, 1)[-1]`: everything after the first occurrence of
`sep`, or the whole string when `sep` does not occur. -/
def splitOnceAfter (sep : Str) (s : Str) : Str :=
  match findSubIdx sep s with
  | none => s
  | some i => s.drop (i + sep.length)

/-- Python `str.split(sep)` for a multi-character separator.  Fuelled so the
definition is structurally recursive (fuel `≥ s.length` is always enough,
because every step consumes at least one character). -/
def splitOnSubAux (sep : Str) : Nat → Str → Str → List Str
  | _, [], acc => [acc.reverse]
  | 0, l, acc => [acc.reverse ++ l]
  | fuel + 1, l@(c :: rest), acc =>
      if sep ≠ [] && sep.isPrefixOf l then
        acc.reverse :: splitOnSubAux sep fuel (l.drop sep.length) []
      else splitOnSubAux sep fuel rest (c :: acc)

/-- Python `str.split(sep)` for a multi-character separator
(keeps empty pieces). -/
def splitOnSub (sep : Str) (s : Str) : List Str := splitOnSubAux sep s.length s []

/-- Python `str.replace(old, '')`: all occurrences of `old` removed. -/
def pyReplaceDrop (old : Str) (s : Str) : Str := (splitOnSub old s).flatten

/-- Python `' '.join(xs)`. -/
def joinSpace (xs : List Str) : Str := List.intercalate [' '] xs

/-- Python `a or b` for an optional string `a` (with `None` and `''` falsy). -/
def pyOrStr (a : Option Str) (b : Str) : Str :=
  match a with
  | none => b
  | some s => if s = [] then b else s

/-- Python `list(set(xs))`: duplicates removed (iteration order of a Python
set is unspecified; this keeps the last occurrences). -/
def pySet {α : Type _} [DecidableEq α] : List α → List α
  | [] => []
  | x :: xs => if x ∈ pySet xs then pySet xs else x :: pySet xs

/-! ### Basic lemmas about the string primitives -/

/-- A string is lower-cased when ASCII lowering fixes every character. -/
def IsLoweredStr (s : Str) : Prop := ∀ c ∈ s, Char.toLower c = c

/-! ### Inventory Index: line parsing (utils.py `_build_inventory_index`) -/

/-- One artwork record, as parsed from an inventory line.  The price is kept
as its captured decimal digit string (the source converts it with `float`;
the digit string determines that float). -/
structure InvRecord where
  name : Str
  price : Str
  country : Str
  desc : Str
deriving DecidableEq

/-- The tail of the inventory-line regex after the captured price:
`\s*\(([^\)]+)\)\s*-\s*(.*)$`, applied to the remainder `rest7`; `name` and
`price` are the already-captured (and, for the name, stripped) groups. -/
def parsePriceTail (name price rest7 : Str) : Option InvRecord :=
  match rest7.dropWhile isPySpace with
  | '(' :: rest8 =>
    let cseg := rest8.takeWhile (fun c => c ≠ ')')
    if cseg = [] then none else
    match rest8.dropWhile (fun c => c ≠ ')') with
    | ')' :: rest9 =>
      match rest9.dropWhile isPySpace with
      | '-' :: rest10 => some ⟨name, price, stripPy cseg, stripPy rest10⟩
      | _ => none
    | _ => none
  | _ => none

/-- One line of `_build_inventory_index` (utils.py:181): the regex
`\s*\d+\.\s*([^\-\n]+?)\s*-\s*\$(\d+\.?\d*)\s*\(([^\)]+)\)\s*-\s*(.*)$`
matched from the start of the line, with the captured name, country and
description stripped as in utils.py:183-186.  Because the name group is lazy
and excludes `-`, the match succeeds exactly when the text between the first
`.` after the ordinal and the first `-` is nonempty, and the stripped group
is that text stripped.  Inputs come from `str.splitlines`, so a line never
contains a newline (the regex could not match across one, since `.` and
`[^\-\n]` exclude it); the first guard makes this explicit. -/
def parseInventoryLine (line : Str) : Option InvRecord :=
  if line.contains '\n' then none else
  let s1 := line.dropWhile isPySpace
  if s1.takeWhile Char.isDigit = [] then none else
  match s1.dropWhile Char.isDigit with
  | '.' :: rest3 =>
    let seg := rest3.takeWhile (fun c => c ≠ '-')
    if seg = [] then none else
    match rest3.dropWhile (fun c => c ≠ '-') with
    | '-' :: rest4 =>
      match rest4.dropWhile isPySpace with
      | '$' :: rest5 =>
        let ipart := rest5.takeWhile Char.isDigit
        if ipart = [] then none else
        -- the price group `\d+\.?\d*` captures either just the integer part
        -- or the integer part, a dot, and a (possibly empty) fraction part
        match rest5.dropWhile Char.isDigit with
        | '.' :: r =>
            parsePriceTail (stripPy seg) (ipart ++ '.' :: r.takeWhile Char.isDigit)
              (r.dropWhile Char.isDigit)
        | other => parsePriceTail (stripPy seg) ipart other
      | _ => none
    | _ => none
  | _ => none

/-- Modelled from the spec: the repository contains no serializer for
inventory records; spec §6 fixes the canonical line format
`"<n>. <Name> - $<Price> (<Country>) - <Description>"`.  `ordinal` stands
for `<n>`. -/
def serializeRecord (ordinal : Str) (r : InvRecord) : Str :=
  ordinal ++ '.' :: ' ' ::
    (r.name ++ ' ' :: '-' :: ' ' :: '$' ::
      (r.price ++ ' ' :: '(' ::
        (r.country ++ ')' :: ' ' :: '-' :: ' ' :: r.desc)))

/-! ### Keyword/Entity Extractor (app.py `get_valid_search_keywords_from_inventory`) -/

/-- The four keyword categories parsed from the `=== SEARCH KEYWORDS ===`
section of `art.txt`. -/
structure KeywordCats where
  countries : List Str
  styles : List Str
  colors : List Str
  themes : List Str
deriving DecidableEq

/-- The comma-separated entries of one category line (app.py:85 etc.):
`[c.strip().lower() for c in line.replace(header, '').split(',')]`. -/
def catEntries (header line : Str) : List Str :=
  (splitOnChar ',' (pyReplaceDrop header line)).map (fun c => pyLower (stripPy c))

/-- One iteration of the category loop (app.py:82-91): a stripped line
starting with a category header replaces that category with the stripped,
lower-cased comma-separated entries of the rest of the line. -/
def parseCatLine (acc : KeywordCats) (rawLine : Str) : KeywordCats :=
  let line := stripPy rawLine
  if (("Countries:").data).isPrefixOf line then
    { acc with countries := catEntries (("Countries:").data) line }
  else if (("Styles:").data).isPrefixOf line then
    { acc with styles := catEntries (("Styles:").data) line }
  else if (("Colors:").data).isPrefixOf line then
    { acc with colors := catEntries (("Colors:").data) line }
  else if (("Themes:").data).isPrefixOf line then
    { acc with themes := catEntries (("Themes:").data) line }
  else acc

/-- The category loop over the lines of the keywords section (app.py:80-91). -/
def keywordCatsOf (keywords_text : Str) : KeywordCats :=
  (splitOnChar '\n' keywords_text).foldl parseCatLine ⟨[], [], [], []⟩

/-- Art names and descriptive words contributed by one line of the inventory
section (app.py:100-116): the art name (text between the first `. ` and the
first ` - `, stripped, lower-cased), words of the name longer than three
characters, and words of the description (after punctuation-stripping) longer
than three characters. -/
def invLineTokens (line : Str) : List Str × List Str :=
  if stripPy line ≠ [] ∧ containsSub line ((". ").data) = true then
    if containsSub line ((" - ").data) = true then
      let fromName :=
        let name_part := (splitOnSub ((" - ").data) line).headD []
        if containsSub name_part ((". ").data) = true then
          let art_name := pyLower (stripPy (splitOnceAfter ((". ").data) name_part))
          (([art_name] : List Str), (splitWs art_name).filter (fun w => w.length > 3))
        else ([], [])
      let desc_part := splitOnceAfter ((" - ").data) line
      let desc_tokens := (splitWs (pyLower desc_part)).filterMap (fun w =>
        let ws := stripChars (("(),").data) w
        if ws.length > 3 then some ws else none)
      (fromName.1, fromName.2 ++ desc_tokens)
    else ([], [])
  else ([], [])

/-- The inventory-section loop (app.py:100-116), accumulating the art names
and the descriptive words. -/
def invNamesTokens (inventory_section : Str) : List Str × List Str :=
  (splitOnChar '\n' inventory_section).foldl
    (fun acc line =>
      (acc.1 ++ (invLineTokens line).1, acc.2 ++ (invLineTokens line).2))
    ([], [])

/-- app.py:66-127 `get_valid_search_keywords_from_inventory`.  Returns the
combined deduplicated keyword list together with the four category lists.
When the `=== SEARCH KEYWORDS ===` header is absent, the Python code never
assigns `countries`/`styles`/`colors`/`themes` and line 122 raises a
`NameError`; that outcome is `none`. -/
def get_valid_search_keywords_from_inventory (inventory_text : Str) :
    Option (List Str × KeywordCats) :=
  let keywords_section := splitOnSub (("=== SEARCH KEYWORDS ===").data) inventory_text
  if keywords_section.length > 1 then
    let keywords_text := keywords_section.getD 1 []
    let cats := keywordCatsOf keywords_text
    let nt :=
      if containsSub inventory_text (("=== COMPLETE INVENTORY ===").data) = true ∧
          containsSub inventory_text (("=== SEARCH KEYWORDS ===").data) = true then
        invNamesTokens
          ((splitOnSub (("=== SEARCH KEYWORDS ===").data)
            ((splitOnSub (("=== COMPLETE INVENTORY ===").data) inventory_text).getD 1 [])).headD [])
      else ([], [])
    let all_keywords := cats.countries ++ cats.styles ++ cats.colors ++ cats.themes
      ++ nt.1 ++ pySet nt.2
    some (pySet (all_keywords.filterMap (fun k =>
      if stripPy k ≠ [] ∧ (stripPy k).length > 2 then some (stripPy k) else none)), cats)
  else none

/-- All four category lists of a `KeywordCats` value are lower-cased. -/
def CatsLowered (acc : KeywordCats) : Prop :=
  (∀ k ∈ acc.countries, IsLoweredStr k) ∧ (∀ k ∈ acc.styles, IsLoweredStr k) ∧
  (∀ k ∈ acc.colors, IsLoweredStr k) ∧ (∀ k ∈ acc.themes, IsLoweredStr k)

/-! ### Response Grounding Validator (app.py) -/

/-- A web action: the `type` entry and the optional `value` entry of the
`{"type": ..., "value": ...}` dicts the backend emits. -/
abbrev WebAction := Str × Option Str

/-- app.py:364-371, the keyword validation of the `chat` endpoint: accept the raw
keyword when it is a member of the lowered vocabulary, otherwise accept the
first vocabulary entry containing it or contained in it, otherwise reject
(`""`, the falsy sentinel).  `kws_set` in the source is a Python set;
its unspecified iteration order is modelled by the list order. -/
def selectKeyword (kws_set : List Str) (raw_keyword : Str) : Str :=
  let keyword := if raw_keyword ∈ kws_set then raw_keyword else []
  if keyword = [] ∧ raw_keyword ≠ [] then
    match kws_set.find? (fun k => containsSub k raw_keyword || containsSub raw_keyword k) with
    | some k => k
    | none => []
  else keyword

/-- Modelled from the spec (§4.3 `validate`): (1) exact membership accepts
the candidate as-is; (2) else the first vocabulary entry, in iteration
order, matching as a substring in either direction; (3) else reject. -/
def validateSpec (vocabulary : List Str) (candidate : Str) : Option Str :=
  if candidate ∈ vocabulary then some candidate
  else vocabulary.find? (fun k => containsSub k candidate || containsSub candidate k)

/-- app.py:444: the search term of a `SEARCH_TRIGGER:` line — the text after
the marker, stripped and lower-cased
(`line.split("SEARCH_TRIGGER:")[1].strip().lower()`). -/
def searchTermOf (line : Str) : Str :=
  pyLower (stripPy ((splitOnSub (("SEARCH_TRIGGER:").data) line).getD 1 []))

/-- app.py:428-467 `parse_search_triggers`: the first line containing
`SEARCH_TRIGGER:` contributes at most one search (plus scroll) action, with
the term validated exactly, then by first partial match, else rejected. -/
def parse_search_triggers (valid_keywords : List Str) (response_text : Str) :
    List WebAction :=
  if containsSub response_text (("SEARCH_TRIGGER:").data) = true then
    match (splitOnChar '\n' response_text).find?
        (fun l => containsSub l (("SEARCH_TRIGGER:").data)) with
    | some line =>
        let search_term := searchTermOf line
        if search_term ∈ valid_keywords then
          [((("search").data : Str), some search_term),
            ((("scroll").data : Str), some (("art-collection").data))]
        else
          match valid_keywords.find?
              (fun k => containsSub k search_term || containsSub search_term k) with
          | some best =>
              [((("search").data : Str), some best),
                ((("scroll").data : Str), some (("art-collection").data))]
          | none => []
    | none => []
  else []

/-! ### The `_search_inventory_tool` of utils.py -/

/-- The shape of the `artworks` entry of the JSON the search LLM returns
(utils.py:275-281): a list of strings, a comma-separated string, or anything
else. -/
inductive ArtworksField
  | list (xs : List Str)
  | str (s : Str)
  | other
deriving DecidableEq

/-- The possible outcomes of the LLM call and JSON parse inside
`_search_inventory_tool` (utils.py:242-303): the call raises (outer
`except`, utils.py:321), the content is not valid JSON
(`json.JSONDecodeError`, utils.py:297), or it parses with a `response`
field and an `artworks` field. -/
inductive SearchOutcome
  | llmError (e : Str)
  | jsonError
  | parsed (response : Str) (artworks : ArtworksField)

/-- The value stored into `self._last_search_artworks` by one invocation of
`_search_inventory_tool`: names are cleaned (utils.py:276-281), validated
against the inventory names by exact membership (utils.py:284), and
truncated to six (utils.py:310); both failure paths store `[]`
(utils.py:303 with 310, utils.py:323). -/
def searchToolLastArtworks (inventory_names : List Str) (out : SearchOutcome) :
    List Str :=
  match out with
  | .llmError _ => []
  | .jsonError => []
  | .parsed _ af =>
      let artwork_names :=
        match af with
        | .list xs => xs.filterMap (fun n =>
            if n ≠ [] ∧ stripPy n ≠ [] then some (stripPy n) else none)
        | .str s => (splitOnChar ',' s).filterMap (fun n =>
            if stripPy n ≠ [] then some (stripPy n) else none)
        | .other => []
      let artwork_names := artwork_names.filter (fun n => n ∈ inventory_names)
      artwork_names.take 6

/-! ### The agents.py pipeline -/

/-- A tool input as recorded in an intermediate step: a plain string or a
dict with the keys `_actions_from_steps` reads (agents.py:489-494). -/
inductive ToolInput
  | str (s : Str)
  | dict (artwork_name destination text : Option Str)

/-- agents.py:490-494: a plain string becomes `{"text": s}`; the result is
the triple of the values at the keys `artwork_name`, `destination`, `text`. -/
def parseToolInput : ToolInput → Option Str × Option Str × Option Str
  | .str s => (none, none, some s)
  | .dict a d t => (a, d, t)

/-- One recorded intermediate tool step: the tool name and its input. -/
structure AgentStep where
  tool : Str
  tool_input : ToolInput

/-- Python `a or b` on two optional strings (`None` and `''` falsy). -/
def pyOrOpt (a b : Option Str) : Option Str :=
  match a with
  | none => b
  | some s => if s = [] then b else s

/-- Python `parsed_input.get("artwork_name") or parsed_input.get("text") or ""`. -/
def getNameOrText (a t : Option Str) : Str := pyOrStr a (pyOrStr t [])

/-- One iteration of the `_actions_from_steps` loop (agents.py:486-513):
quick-view and add-to-cart require a nonempty name, navigate requires a
destination in `{cart, home}` (dropped otherwise). -/
def agentStepActions (actions : List WebAction) (step : AgentStep) : List WebAction :=
  let pi := parseToolInput step.tool_input
  if step.tool = ("quick_view").data ∨ step.tool = ("quick_view_artwork").data then
    let name := getNameOrText pi.1 pi.2.2
    if name ≠ [] then actions ++ [((("quick_view").data : Str), some name)] else actions
  else if step.tool = ("add_to_cart").data then
    let name := getNameOrText pi.1 pi.2.2
    if name ≠ [] then actions ++ [((("add_to_cart").data : Str), some name)] else actions
  else if step.tool = ("navigate").data then
    match pyOrOpt pi.2.1 pi.2.2 with
    | some d =>
        if d = ("cart").data ∨ d = ("home").data then
          actions ++ [((("navigate").data : Str), some d)]
        else actions
    | none => actions
  else if step.tool = ("go_to_cart").data then
    actions ++ [((("navigate").data : Str), some (("cart").data))]
  else if step.tool = ("go_to_home").data then
    actions ++ [((("navigate").data : Str), some (("home").data))]
  else if step.tool = ("proceed_to_checkout").data ∨ step.tool = ("checkout").data then
    actions ++ [((("checkout").data : Str), some (("start").data))]
  else actions

/-- agents.py:482-516 `_actions_from_steps`: translate recorded tool steps
into web actions. -/
def actionsFromSteps (steps : List AgentStep) : List WebAction :=
  steps.foldl agentStepActions []

/-- Stop characters of the text-marker regexes `([^\n.!?]+)` (agents.py:459-460). -/
def markerStop (c : Char) : Bool := c = '\n' || c = '.' || c = '!' || c = '?'

/-- `re.search(marker + "([^\n.!?]+)", text)`: the captured group at the
leftmost position where the marker is followed by at least one non-stop
character. -/
def searchMarker (marker : Str) : Str → Option Str
  | [] => none
  | l@(_ :: rest) =>
      if marker.isPrefixOf l then
        let cap := (l.drop marker.length).takeWhile (fun c => !(markerStop c))
        if cap ≠ [] then some cap else searchMarker marker rest
      else searchMarker marker rest

/-- agents.py:451-480 `_parse_web_actions`: marker-based fallback extraction
of actions from the reply text.  The source appends to one list in this
order; the result is written here as the concatenation of the five
condition-dependent contributions, which produces the same list. -/
def parseWebActions (response_text : Str) : List WebAction :=
  (match searchMarker (("QUICK_VIEW:").data) response_text with
    | some m => [((("quick_view").data : Str), some (stripPy m))]
    | none => []) ++
  (match searchMarker (("ADD_TO_CART:").data) response_text with
    | some m => [((("add_to_cart").data : Str), some (stripPy m))]
    | none => []) ++
  (if containsSub response_text (("GO_TO_CART").data) = true then
    [((("navigate").data : Str), some (("cart").data))]
  else []) ++
  (if containsSub response_text (("GO_TO_HOME").data) = true then
    [((("navigate").data : Str), some (("home").data))]
  else []) ++
  (if containsSub response_text (("PROCEED_TO_CHECKOUT").data) = true then
    [((("checkout").data : Str), some (("start").data))]
  else [])

/-- The deterministic fallback of `_classify_intent` (agents.py:399-402 and
407-409; identical in lambda/utils.py:250-253 and 257-260): label
`art_suggestion` iff the lower-cased reply contains one of the first thirty
inventory names (lower-cased), else `general_info`. -/
def classifyIntentFallback (artwork_names : List Str) (response : Str) : Str :=
  let response_lower := pyLower response
  if (artwork_names.take 30).any (fun n => containsSub response_lower (pyLower n)) then
    ("art_suggestion").data
  else ("general_info").data

/-- agents.py:370-409 `_classify_intent`: the LLM label is used when it is
one of the three literals; otherwise (including when the call raises) the
deterministic fallback runs. -/
def classifyIntent (classifyResult : Except Str Str) (artwork_names : List Str)
    (response : Str) : Str :=
  match classifyResult with
  | .ok content =>
      let intent := pyLower (stripPy content)
      if intent = ("art_suggestion").data ∨ intent = ("general_info").data ∨
          intent = ("both").data then intent
      else classifyIntentFallback artwork_names response
  | .error _ => classifyIntentFallback artwork_names response

/-- agents.py:411-449 `_extract_suggested_artworks`: the line-per-name LLM
answer is cleaned (numbering and bullets removed, at most four words per
name); on `NONE`, empty output, or an exception the result is `[]`.
No inventory check happens here. -/
def extractSuggestedArtworks (extractResult : Except Str Str) : List Str :=
  match extractResult with
  | .error _ => []
  | .ok content =>
      let extracted_text := stripPy content
      if pyUpper extracted_text = ("NONE").data ∨ extracted_text = [] then []
      else
        let lines := (splitOnChar '\n' extracted_text).filterMap
          (fun l => if stripPy l ≠ [] then some (stripPy l) else none)
        lines.filterMap (fun line =>
          let clean_line :=
            stripPy (splitOnceAfter (("- ").data) (splitOnceAfter ((". ").data) line))
          if clean_line ≠ [] ∧ (splitWs clean_line).length ≤ 4 then some clean_line
          else none)

/-- The outcomes of the three LLM interactions `_process_message_sync`
depends on: the agent-executor invocation (returning the `output` text and
the recorded intermediate steps), the classification call, and the
extraction call. -/
structure AgentOracle where
  invokeResult : Except Str (Str × List AgentStep)
  classifyResult : Except Str Str
  extractResult : Except Str Str

/-- A Python exception escaping a function of the embedding. -/
inductive PyErr
  | nameError
deriving DecidableEq

/-- The structured result (agents.py:24-30). -/
structure ArtworkSuggestion where
  names : List Str
  intent : Str
  response : Str
  web_actions : List WebAction
deriving DecidableEq

/-- The imperative action types of the priority guard (agents.py:356). -/
def imperativeTypes : List Str :=
  [("add_to_cart").data, ("quick_view").data, ("navigate").data, ("checkout").data]

/-- agents.py:329-368 `_process_message_sync`.  On a failed invocation the
`except` branch (agents.py:336-337) builds an apologetic `response_text`,
but `result` is bound only inside the `try`, so agents.py:348
`result.get("intermediate_steps", [])` raises `NameError`, which nothing in
this function catches; that outcome is `.error .nameError`.  `user_message`
only feeds prompts, so it does not appear in the data path. -/
def processMessageSync (inventory_artwork_names : List Str) (o : AgentOracle) :
    Except PyErr ArtworkSuggestion :=
  match o.invokeResult with
  | .error _ => .error .nameError
  | .ok (output, steps) =>
      let response_text := output
      let intent := classifyIntent o.classifyResult inventory_artwork_names response_text
      let artwork_names :=
        if intent = ("art_suggestion").data ∨ intent = ("both").data then
          extractSuggestedArtworks o.extractResult
        else []
      let web_actions := actionsFromSteps steps
      let web_actions := if web_actions = [] then parseWebActions response_text
        else web_actions
      let has_imperative := web_actions.any (fun a => a.1 ∈ imperativeTypes)
      let web_actions :=
        if ¬has_imperative ∧ artwork_names ≠ [] ∧
            (intent = ("art_suggestion").data ∨ intent = ("both").data) then
          if ¬ web_actions.any (fun a => a.1 = ("search").data) then
            web_actions ++
              [((("search").data : Str), some (pyLower (joinSpace artwork_names))),
                ((("scroll").data : Str), some (("art-collection").data))]
          else web_actions
        else web_actions
      .ok ⟨artwork_names, intent, response_text, web_actions⟩

/-- Well-formedness of a synthesized base action: its type is one of the
four imperative types, and a navigate action carries a valid destination. -/
def ActionSound (a : WebAction) : Prop :=
  a.1 ∈ imperativeTypes ∧
  (a.1 = ("navigate").data → a.2 = some (("cart").data) ∨ a.2 = some (("home").data))

/-! ### The utils.py pipeline (`process_message`, used by lambda_function.py) -/

/-- One recorded tool step of the planner executor, as read by
utils.py:359-402: the tool name, the dict entries the code fetches from the
tool input, and the observation (`step[1]`). -/
structure UtilsStep where
  tool : Str
  artwork_name : Option Str
  destination : Option Str
  query : Option Str
  observation : Str

/-- The per-step action mapping of utils.py:359-402.  Note that the
navigate branch (utils.py:377-380) forwards any nonempty destination
unvalidated, and the checkout branch (utils.py:382-383) emits an action
without a `value` entry. -/
def utilsStepActions (lastSearch : List Str) (actions : List WebAction)
    (st : UtilsStep) : List WebAction :=
  if st.tool = ("quick_view").data then
    let artwork_name := (st.artwork_name).getD []
    if artwork_name ≠ [] then actions ++ [((("quick_view").data : Str), some artwork_name)]
    else actions
  else if st.tool = ("add_to_cart").data then
    let artwork_name := (st.artwork_name).getD []
    if artwork_name ≠ [] then actions ++ [((("add_to_cart").data : Str), some artwork_name)]
    else actions
  else if st.tool = ("navigate").data then
    let destination := (st.destination).getD []
    if destination ≠ [] then actions ++ [((("navigate").data : Str), some destination)]
    else actions
  else if st.tool = ("checkout").data then
    actions ++ [((("checkout").data : Str), none)]
  else if st.tool = ("search_inventory").data then
    if lastSearch ≠ [] then
      actions ++ [((("search").data : Str), some (joinSpace lastSearch)),
        ((("scroll").data : Str), some (("art-collection").data))]
    else actions ++ [((("scroll").data : Str), some (("art-collection").data))]
  else actions

/-- utils.py:342-431 `process_message`.  The whole body is inside
`try`/`except`, so a failed planner invocation yields the degraded
`ArtworkSuggestion` of utils.py:426-431.  `lastSearch` is the value of
`self._last_search_artworks` after the planner run (written by
`_search_inventory_tool`). -/
def utilsProcessMessage (lastSearch : List Str)
    (plannerResult : Except Str (Str × List UtilsStep)) : ArtworkSuggestion :=
  match plannerResult with
  | .error e =>
      { names := [], intent := ("general_info").data,
        response := ("I encountered an error: ").data ++ e, web_actions := [] }
  | .ok (output, tool_steps) =>
      let web_actions := tool_steps.foldl (utilsStepActions lastSearch) []
      let planner_output :=
        if tool_steps.any (fun st => st.tool = ("search_inventory").data) then
          match (tool_steps.reverse).find?
              (fun st => st.tool = ("search_inventory").data) with
          | some st => st.observation
          | none => output
        else output
      let response_text := pyOrStr (some planner_output) (("I\x27d be happy to help you!").data)
      let intent :=
        if web_actions.any (fun a => containsSub a.1 (("search").data)) then
          ("art_suggestion").data
        else ("general_info").data
      { names := lastSearch, intent := intent, response := response_text,
        web_actions := web_actions }

/-! ### HTTP handlers: main.py, lambda_function.py, app.py -/

/-- The JSON body of a chat request: the `message` field and its `text`
synonym (a missing field is `none`). -/
structure ChatRequest where
  message : Option Str
  text : Option Str
deriving DecidableEq

/-- The response body of the non-streaming chat handler of main.py. -/
structure MainChatResponse where
  response : Str
  web_actions : List WebAction
  intent : Str
  suggested_artworks : List Str
  status : Str
  agent_used : Bool
deriving DecidableEq

/-- The result of `_chat_handler` in main.py. -/
inductive MainResult
  | badRequest (error : Str)
  | ok (body : MainChatResponse)
deriving DecidableEq

/-- main.py:56-148 `_chat_handler` (non-streaming path).  The conversation
memory (`mem`) stands for the mutable assistant state; a successful turn
appends the user message and the reply (the `ConversationBufferMemory`
update performed inside the agent run), the error paths leave it unchanged.
`data = none` models `request.get_json` returning no dict. -/
def mainChatHandler (mem : List Str) (inventory_artwork_names : List Str)
    (o : AgentOracle) (data : Option ChatRequest) : MainResult × List Str :=
  match data with
  | none => (.badRequest (("No data provided").data), mem)
  | some d =>
      let user_message := stripPy ((d.message).getD [])
      if user_message = [] then (.badRequest (("No message provided").data), mem)
      else
        match processMessageSync inventory_artwork_names o with
        | .ok result =>
            (.ok { response := result.response, web_actions := result.web_actions,
                    intent := result.intent, suggested_artworks := result.names,
                    status := ("success").data, agent_used := true },
              mem ++ [user_message, result.response])
        | .error _ =>
            -- main.py:135-148: the handler-level `except` branch returns the
            -- degraded body (apology text elided to its fixed prefix)
            (.ok { response := ("I apologize, but I\x27m having technical difficulties. Please try again!").data,
                    web_actions := [], intent := ("general_info").data,
                    suggested_artworks := [], status := ("error").data,
                    agent_used := false },
              mem)

/-- An API-Gateway-style response of lambda_function.py. -/
structure LambdaResult where
  statusCode : Nat
  success : Bool
  error : Option Str
  body : Option ArtworkSuggestion
deriving DecidableEq

/-- lambda_function.py:179-228, the chat branch of `lambda_handler` (which
processes messages with `process_message` of utils.py).  `body = none`
models an unparsable JSON body (`json.JSONDecodeError` → 400). -/
def lambdaChatHandler (mem : List Str) (lastSearch : List Str)
    (plannerResult : Except Str (Str × List UtilsStep)) (body : Option ChatRequest) :
    LambdaResult × List Str :=
  match body with
  | none => ({ statusCode := 400, success := false,
               error := some (("Invalid JSON").data), body := none }, mem)
  | some d =>
      let user_message := stripPy (pyOrStr d.text (pyOrStr d.message []))
      if user_message = [] then
        -- the source literal quotes the word message
        ({ statusCode := 400, success := false,
           error := some (("Missing \x27message\x27 in body").data), body := none }, mem)
      else
        let result := utilsProcessMessage lastSearch plannerResult
        ({ statusCode := 200, success := true, error := none, body := some result },
          mem ++ [user_message, result.response])

/-- The outcomes of the two OpenAI calls of app.py: the first (conversational)
pass and the second (keyword selector) pass. -/
structure AppOracle where
  firstPass : Except Str Str
  secondPass : Except Str Str

/-- A response of the `chat` endpoint of app.py. -/
inductive AppResult
  | err (status : Nat) (error : Str)
  | ok (response : Str) (web_actions : List WebAction) (status_str : Str)
deriving DecidableEq

/-- app.py:404-417: the `except` branch distinguishes authentication and
rate-limit failures. -/
def appChatError (e : Str) : AppResult :=
  if containsSub (pyLower e) (("authentication").data) = true then
    .err 401 (("Invalid API key").data)
  else if containsSub (pyLower e) (("rate limit").data) = true then
    .err 429 (("Rate limit exceeded").data)
  else .err 500 e

/-- app.py:280-421 `chat`: request validation, two LLM passes, keyword
validation (via `selectKeyword`, app.py:364-371), and action synthesis
(app.py:373-383). -/
def appChat (valid_keywords : List Str) (o : AppOracle) (data : Option ChatRequest) :
    AppResult :=
  match data with
  | none => .err 400 (("No data provided").data)
  | some d =>
      match d.message with
      | none => .err 400 (("No message provided").data)
      | some m =>
          if m = [] then .err 400 (("No message provided").data)
          else
            match o.firstPass with
            | .error e => appChatError e
            | .ok bot_response =>
                match o.secondPass with
                | .error e => appChatError e
                | .ok content =>
                    let raw_keyword := pyLower (stripPy content)
                    let kws_set := valid_keywords.map pyLower
                    let keyword := selectKeyword kws_set raw_keyword
                    let web_actions : List WebAction :=
                      if keyword ≠ [] then
                        [((("search").data : Str), some keyword),
                          ((("scroll").data : Str), some (("art-collection").data))]
                      else []
                    .ok (stripPy bot_response) web_actions (("success").data)

/-! ### Basic lemmas about the string primitives -/

theorem charOfNat_toNat (n : Nat) (h1 : n < 55296) : (Char.ofNat n).toNat = n := by
  have hv : n.isValidChar := Or.inl h1
  unfold Char.ofNat
  rw [dif_pos hv]
  simp [Char.ofNatAux, Char.toNat, UInt32.toNat, UInt32.ofNatCore]

theorem toLower_eq (c : Char) :
    Char.toLower c = if c.toNat ≥ 65 ∧ c.toNat ≤ 90 then Char.ofNat (c.toNat + 32) else c := rfl

theorem toLower_idem (c : Char) : Char.toLower (Char.toLower c) = Char.toLower c := by
  by_cases h : c.toNat ≥ 65 ∧ c.toNat ≤ 90
  · rw [toLower_eq c, if_pos h, toLower_eq, charOfNat_toNat (c.toNat + 32) (by omega),
      if_neg (by omega)]
  · rw [toLower_eq c, if_neg h, toLower_eq c, if_neg h]

theorem isLoweredStr_pyLower (s : Str) : IsLoweredStr (pyLower s) := by
  intro c hc
  rcases List.mem_map.mp hc with ⟨a, _, rfl⟩
  exact toLower_idem a

theorem isLoweredStr_of_subset {s t : Str} (hsub : ∀ c ∈ s, c ∈ t)
    (ht : IsLoweredStr t) : IsLoweredStr s :=
  fun c hc => ht c (hsub c hc)

theorem mem_of_mem_dropWhile {α : Type _} {p : α → Bool} {l : List α} {x : α}
    (h : x ∈ l.dropWhile p) : x ∈ l :=
  (List.dropWhile_sublist p).subset h

theorem mem_of_mem_takeWhile {α : Type _} {p : α → Bool} {l : List α} {x : α}
    (h : x ∈ l.takeWhile p) : x ∈ l :=
  (List.takeWhile_sublist p).subset h

theorem stripPy_subset (s : Str) : ∀ c ∈ stripPy s, c ∈ s := by
  intro c hc
  unfold stripPy rstripPy lstripPy at hc
  have h1 := List.mem_reverse.mp hc
  have h2 := mem_of_mem_dropWhile h1
  exact mem_of_mem_dropWhile (List.mem_reverse.mp h2)

theorem stripChars_subset (cs s : Str) : ∀ c ∈ stripChars cs s, c ∈ s := by
  intro c hc
  unfold stripChars at hc
  have h1 := List.mem_reverse.mp hc
  have h2 := mem_of_mem_dropWhile h1
  exact mem_of_mem_dropWhile (List.mem_reverse.mp h2)

theorem dropWhile_head_false {p : Char → Bool} :
    ∀ {s : Str} {x : Char} {xs : Str}, s.dropWhile p = x :: xs → p x = false := by
  intro s
  induction s with
  | nil => intro x xs h; simp at h
  | cons a t ih =>
      intro x xs h
      rw [List.dropWhile_cons] at h
      by_cases hp : p a
      · rw [if_pos hp] at h; exact ih h
      · rw [if_neg hp] at h
        cases h
        simpa using hp

theorem dropWhile_cons_of_neg {p : Char → Bool} {a : Char} {l : Str}
    (h : p a = false) : (a :: l).dropWhile p = a :: l := by
  rw [List.dropWhile_cons, if_neg (by simp [h])]

theorem dropWhile_cons_of_pos {p : Char → Bool} {a : Char} {l : Str}
    (h : p a = true) : (a :: l).dropWhile p = l.dropWhile p := by
  rw [List.dropWhile_cons, if_pos h]

theorem dropWhile_eq_self_of_head {p : Char → Bool} {s : Str}
    (h : ∀ x xs, s = x :: xs → p x = false) : s.dropWhile p = s := by
  cases s with
  | nil => rfl
  | cons a t => rw [List.dropWhile_cons, if_neg (by simp [h a t rfl])]

theorem dropWhile_eq_nil_of_all {p : Char → Bool} {s : Str}
    (h : ∀ c ∈ s, p c = true) : s.dropWhile p = [] := by
  induction s with
  | nil => rfl
  | cons a t ih =>
      rw [List.dropWhile_cons, if_pos (h a (by simp))]
      exact ih (fun c hc => h c (by simp [hc]))

theorem takeWhile_eq_self_of_all {p : Char → Bool} {s : Str}
    (h : ∀ c ∈ s, p c = true) : s.takeWhile p = s := by
  induction s with
  | nil => rfl
  | cons a t ih =>
      rw [List.takeWhile_cons, if_pos (h a (by simp))]
      rw [ih (fun c hc => h c (by simp [hc]))]

/-- Scanning `a ++ b :: r` with a predicate that holds on all of `a` but not
on `b` takes exactly `a`. -/
theorem takeWhile_middle {p : Char → Bool} {a : Str} {b : Char} {r : Str}
    (ha : ∀ c ∈ a, p c = true) (hb : p b = false) :
    (a ++ b :: r).takeWhile p = a := by
  induction a with
  | nil => simp [List.takeWhile_cons, hb]
  | cons x t ih =>
      rw [List.cons_append, List.takeWhile_cons, if_pos (ha x (by simp))]
      rw [ih (fun c hc => ha c (by simp [hc]))]

/-- Companion of `takeWhile_middle` for `dropWhile`. -/
theorem dropWhile_middle {p : Char → Bool} {a : Str} {b : Char} {r : Str}
    (ha : ∀ c ∈ a, p c = true) (hb : p b = false) :
    (a ++ b :: r).dropWhile p = b :: r := by
  induction a with
  | nil => simp [List.dropWhile_cons, hb]
  | cons x t ih =>
      rw [List.cons_append, List.dropWhile_cons, if_pos (ha x (by simp))]
      exact ih (fun c hc => ha c (by simp [hc]))

theorem lstripPy_head_false {s : Str} {x : Char} {xs : Str} (h : lstripPy s = x :: xs) :
    isPySpace x = false := dropWhile_head_false h

/-- A right strip leaves a prefix: `s = rstripPy s ++ (trailing whitespace)`. -/
theorem rstripPy_decomp (s : Str) :
    s = rstripPy s ++ (s.reverse.takeWhile isPySpace).reverse := by
  unfold rstripPy
  have h := List.takeWhile_append_dropWhile (p := isPySpace) (l := s.reverse)
  calc s = s.reverse.reverse := by rw [List.reverse_reverse]
    _ = (s.reverse.takeWhile isPySpace ++ s.reverse.dropWhile isPySpace).reverse := by rw [h]
    _ = _ := by rw [List.reverse_append]

theorem stripPy_head_false {s : Str} {x : Char} {xs : Str} (h : stripPy s = x :: xs) :
    isPySpace x = false := by
  unfold stripPy at h
  have hd := rstripPy_decomp (lstripPy s)
  rw [h] at hd
  exact lstripPy_head_false (s := s) (by rw [hd, List.cons_append])

theorem stripPy_revhead_false {s : Str} {x : Char} {xs : Str}
    (h : (stripPy s).reverse = x :: xs) : isPySpace x = false := by
  unfold stripPy rstripPy at h
  rw [List.reverse_reverse] at h
  exact dropWhile_head_false h

/-- A string whose two ends are not whitespace is fixed by `stripPy`. -/
theorem stripPy_eq_self {s : Str}
    (hHead : ∀ x xs, s = x :: xs → isPySpace x = false)
    (hLast : ∀ x xs, s.reverse = x :: xs → isPySpace x = false) :
    stripPy s = s := by
  unfold stripPy rstripPy lstripPy
  rw [dropWhile_eq_self_of_head hHead, dropWhile_eq_self_of_head hLast,
    List.reverse_reverse]

theorem stripPy_idem (s : Str) : stripPy (stripPy s) = stripPy s :=
  stripPy_eq_self (fun _ _ h => stripPy_head_false h)
    (fun _ _ h => stripPy_revhead_false h)

theorem isPySpace_space : isPySpace ' ' = true := by decide

/-- Stripping a stripped string with one leading space recovers it. -/
theorem stripPy_space_cons {s : Str} (h : stripPy s = s) :
    stripPy (' ' :: s) = s := by
  have h1 : lstripPy (' ' :: s) = lstripPy s := dropWhile_cons_of_pos isPySpace_space
  have h2 : stripPy (' ' :: s) = stripPy s := by
    unfold stripPy
    rw [h1]
  rw [h2, h]

/-- Stripping a stripped string padded with one space on each side recovers it. -/
theorem stripPy_pad {s : Str} (h : stripPy s = s) :
    stripPy ((' ' :: s) ++ [' ']) = s := by
  have hmain : stripPy (s ++ [' ']) = s := by
    cases s with
    | nil =>
        show stripPy [' '] = []
        rfl
    | cons x t =>
        have hx : isPySpace x = false := stripPy_head_false (by rw [h])
        obtain ⟨y, ys, hrev⟩ : ∃ y ys, (x :: t).reverse = y :: ys :=
          List.exists_cons_of_ne_nil (by simp : (x :: t).reverse ≠ [])
        have hy : isPySpace y = false := stripPy_revhead_false (by rw [h, hrev])
        have hl : lstripPy ((x :: t) ++ [' ']) = (x :: t) ++ [' '] := by
          rw [List.cons_append]
          exact dropWhile_cons_of_neg hx
        have hr : rstripPy ((x :: t) ++ [' ']) = x :: t := by
          unfold rstripPy
          rw [List.reverse_append, List.reverse_singleton, List.singleton_append,
            dropWhile_cons_of_pos isPySpace_space, hrev, dropWhile_cons_of_neg hy,
            ← hrev, List.reverse_reverse]
        unfold stripPy
        rw [hl, hr]
  have hcons : stripPy ((' ' :: s) ++ [' ']) = stripPy (s ++ [' ']) := by
    unfold stripPy
    rw [List.cons_append, lstripPy, dropWhile_cons_of_pos isPySpace_space]
    rfl
  rw [hcons, hmain]

theorem mem_splitWsAux {s acc : Str} {w : Str} (hw : w ∈ splitWsAux s acc) :
    ∀ c ∈ w, c ∈ s ∨ c ∈ acc := by
  induction s generalizing acc with
  | nil =>
      intro c hc
      unfold splitWsAux at hw
      by_cases hacc : acc = []
      · simp [hacc] at hw
      · rw [if_neg hacc] at hw
        simp at hw
        subst hw
        exact Or.inr (List.mem_reverse.mp hc)
  | cons a t ih =>
      intro c hc
      unfold splitWsAux at hw
      by_cases hsp : isPySpace a
      · rw [if_pos hsp] at hw
        by_cases hacc : acc = []
        · rw [if_pos hacc] at hw
          rcases ih hw c hc with h | h
          · exact Or.inl (by simp [h])
          · simp at h
        · rw [if_neg hacc] at hw
          rcases List.mem_cons.mp hw with rfl | hw2
          · exact Or.inr (List.mem_reverse.mp hc)
          · rcases ih hw2 c hc with h | h
            · exact Or.inl (by simp [h])
            · simp at h
      · rw [if_neg hsp] at hw
        rcases ih hw c hc with h | h
        · exact Or.inl (by simp [h])
        · rcases List.mem_cons.mp h with rfl | h2
          · exact Or.inl (by simp)
          · exact Or.inr h2

theorem mem_splitWs {s w : Str} (hw : w ∈ splitWs s) : ∀ c ∈ w, c ∈ s := by
  intro c hc
  rcases mem_splitWsAux hw c hc with h | h
  · exact h
  · simp at h

theorem mem_pySet {α : Type _} [DecidableEq α] {l : List α} {a : α} :
    a ∈ pySet l ↔ a ∈ l := by
  induction l with
  | nil => simp [pySet]
  | cons x xs ih =>
      unfold pySet
      by_cases hx : x ∈ pySet xs
      · rw [if_pos hx]
        constructor
        · intro h; exact List.mem_cons.mpr (Or.inr (ih.mp h))
        · intro h
          rcases List.mem_cons.mp h with rfl | h2
          · exact hx
          · exact ih.mpr h2
      · rw [if_neg hx]
        constructor
        · intro h
          rcases List.mem_cons.mp h with rfl | h2
          · exact List.mem_cons_self _ _
          · exact List.mem_cons.mpr (Or.inr (ih.mp h2))
        · intro h
          rcases List.mem_cons.mp h with rfl | h2
          · exact List.mem_cons_self _ _
          · exact List.mem_cons.mpr (Or.inr (ih.mpr h2))

/-- The Python substring test agrees with `List.IsInfix`. -/
theorem containsSub_iff {hay needle : Str} :
    containsSub hay needle = true ↔ needle <:+: hay := by
  induction hay with
  | nil =>
      unfold containsSub
      rw [List.isPrefixOf_iff_prefix]
      constructor
      · intro h
        have := List.prefix_nil.mp h
        simp [this]
      · intro h
        have := List.eq_nil_of_infix_nil h
        simp [this]
  | cons a t ih =>
      unfold containsSub
      rw [Bool.or_eq_true, List.isPrefixOf_iff_prefix, ih, List.infix_cons_iff]

/-! ### Inventory Index: line parsing (utils.py `_build_inventory_index`) -/

theorem mem_scrut_of_mem_tail {p : Char → Bool} {s : Str} {b : Char} {t : Str}
    (heq : s.dropWhile p = b :: t) : ∀ c ∈ t, c ∈ s := fun _ hc =>
  mem_of_mem_dropWhile (heq ▸ List.mem_cons_of_mem b hc)

theorem isPySpace_of_isDigit {c : Char} (h : c.isDigit = true) : isPySpace c = false := by
  by_contra hsp
  rw [Bool.not_eq_false] at hsp
  simp only [isPySpace, Bool.or_eq_true, decide_eq_true_eq] at hsp
  rcases hsp with ((((rfl | rfl) | rfl) | rfl) | rfl) | rfl <;> exact absurd h (by decide)

/-- Shape facts of the tail parser: name and price are returned verbatim,
the country is a nonempty-before-stripping run of non-`)` characters of
`rest7`, stripped, and the description is a suffix-run of `rest7`, stripped. -/
theorem parsePriceTail_spec {name price rest7 : Str} {r : InvRecord}
    (h : parsePriceTail name price rest7 = some r) :
    r.name = name ∧ r.price = price ∧
    stripPy r.country = r.country ∧ (∀ c ∈ r.country, c ≠ ')' ∧ c ∈ rest7) ∧
    stripPy r.desc = r.desc ∧ (∀ c ∈ r.desc, c ∈ rest7) := by
  simp only [parsePriceTail] at h
  split at h
  case _ rest8 heq8 =>
    have hmem8 : ∀ c ∈ rest8, c ∈ rest7 := mem_scrut_of_mem_tail heq8
    split at h
    · exact Option.noConfusion h
    · split at h
      case _ rest9 heq9 =>
        have hmem9 : ∀ c ∈ rest9, c ∈ rest7 := fun c hc =>
          hmem8 c (mem_scrut_of_mem_tail heq9 c hc)
        split at h
        case _ rest10 heq10 =>
          have hmem10 : ∀ c ∈ rest10, c ∈ rest7 := fun c hc =>
            hmem9 c (mem_scrut_of_mem_tail heq10 c hc)
          cases h
          refine ⟨rfl, rfl, stripPy_idem _, ?_, stripPy_idem _, ?_⟩
          · intro c hc
            have hcseg := stripPy_subset _ c hc
            have hpc := List.mem_takeWhile_imp hcseg
            simp only [decide_eq_true_eq] at hpc
            exact ⟨hpc, hmem8 c (mem_of_mem_takeWhile hcseg)⟩
          · intro c hc
            exact hmem10 c (stripPy_subset _ c hc)
        case _ => exact Option.noConfusion h
      case _ => exact Option.noConfusion h
  case _ => exact Option.noConfusion h

/-- Shape facts guaranteed for every successfully parsed record: the three
text fields are stripped, the name avoids `-` and newlines, the country
avoids `)` and newlines, the description avoids newlines, and the price is a
nonempty digit string with at most one decimal point. -/
theorem parseInventoryLine_shape {line : Str} {r : InvRecord}
    (h : parseInventoryLine line = some r) :
    stripPy r.name = r.name ∧ (∀ c ∈ r.name, c ≠ '-' ∧ c ≠ '\n') ∧
    (∃ i f, i ≠ [] ∧ (∀ c ∈ i, Char.isDigit c = true) ∧
      (∀ c ∈ f, Char.isDigit c = true) ∧ (r.price = i ∨ r.price = i ++ '.' :: f)) ∧
    stripPy r.country = r.country ∧ (∀ c ∈ r.country, c ≠ ')' ∧ c ≠ '\n') ∧
    stripPy r.desc = r.desc ∧ (∀ c ∈ r.desc, c ≠ '\n') := by
  simp only [parseInventoryLine] at h
  split at h
  · exact Option.noConfusion h
  · rename_i hguard
    have hnl : ∀ c ∈ line, c ≠ '\n' := by
      intro c hc hce
      subst hce
      exact hguard (by simpa [List.contains] using hc)
    split at h
    · exact Option.noConfusion h
    · split at h
      case _ rest3 heq3 =>
        have hmem3 : ∀ c ∈ rest3, c ∈ line := fun c hc =>
          mem_of_mem_dropWhile (mem_scrut_of_mem_tail heq3 c hc)
        have hname : ∀ c ∈ stripPy (rest3.takeWhile (fun c => c ≠ '-')),
            c ≠ '-' ∧ c ≠ '\n' := by
          intro c hc
          have hcseg := stripPy_subset _ c hc
          have hpc := List.mem_takeWhile_imp hcseg
          simp only [decide_eq_true_eq] at hpc
          exact ⟨hpc, hnl c (hmem3 c (mem_of_mem_takeWhile hcseg))⟩
        split at h
        · exact Option.noConfusion h
        · split at h
          case _ rest4 heq4 =>
            have hmem4 : ∀ c ∈ rest4, c ∈ line := fun c hc =>
              hmem3 c (mem_scrut_of_mem_tail heq4 c hc)
            split at h
            case _ rest5 heq5 =>
              have hmem5 : ∀ c ∈ rest5, c ∈ line := fun c hc =>
                hmem4 c (mem_scrut_of_mem_tail heq5 c hc)
              split at h
              · exact Option.noConfusion h
              · rename_i hipart
                split at h
                case _ rP heqP =>
                  have hmemP : ∀ c ∈ rP, c ∈ line := fun c hc =>
                    hmem5 c (mem_scrut_of_mem_tail heqP c hc)
                  obtain ⟨hn, hp, hc1, hc2, hd1, hd2⟩ := parsePriceTail_spec h
                  refine ⟨hn ▸ stripPy_idem _, hn ▸ hname, ?_, hc1, ?_, hd1, ?_⟩
                  · exact ⟨rest5.takeWhile Char.isDigit, rP.takeWhile Char.isDigit,
                      hipart, fun c hc => List.mem_takeWhile_imp hc,
                      fun c hc => List.mem_takeWhile_imp hc, Or.inr hp⟩
                  · intro c hc
                    refine ⟨(hc2 c hc).1, ?_⟩
                    exact hnl c (hmemP c (mem_of_mem_dropWhile ((hc2 c hc).2)))
                  · intro c hc
                    exact hnl c (hmemP c (mem_of_mem_dropWhile (hd2 c hc)))
                case _ =>
                  have hmemP : ∀ c ∈ List.dropWhile Char.isDigit rest5, c ∈ line :=
                    fun c hc => hmem5 c (mem_of_mem_dropWhile hc)
                  obtain ⟨hn, hp, hc1, hc2, hd1, hd2⟩ := parsePriceTail_spec h
                  refine ⟨hn ▸ stripPy_idem _, hn ▸ hname, ?_, hc1, ?_, hd1, ?_⟩
                  · exact ⟨rest5.takeWhile Char.isDigit, [], hipart,
                      fun c hc => List.mem_takeWhile_imp hc,
                      fun c hc => absurd hc (List.not_mem_nil c), Or.inl hp⟩
                  · intro c hc
                    exact ⟨(hc2 c hc).1, hnl c (hmemP c ((hc2 c hc).2))⟩
                  · intro c hc
                    exact hnl c (hmemP c (hd2 c hc))
            case _ => exact Option.noConfusion h
          case _ => exact Option.noConfusion h
      case _ => exact Option.noConfusion h

theorem isPySpace_open_paren : isPySpace '(' = false := by decide

theorem isPySpace_dash : isPySpace '-' = false := by decide

theorem isPySpace_dollar : isPySpace '$' = false := by decide

/-- Re-parsing the serialized remainder after the price recovers the country
and description exactly. -/
theorem parsePriceTail_roundtrip {name price country desc : Str}
    (hc : stripPy country = country) (hcne : country ≠ [])
    (hcch : ∀ c ∈ country, c ≠ ')') (hd : stripPy desc = desc) :
    parsePriceTail name price
      (' ' :: '(' :: (country ++ ')' :: ' ' :: '-' :: ' ' :: desc)) =
    some ⟨name, price, country, desc⟩ := by
  have e1 : List.dropWhile isPySpace
      (' ' :: '(' :: (country ++ ')' :: ' ' :: '-' :: ' ' :: desc)) =
      '(' :: (country ++ ')' :: ' ' :: '-' :: ' ' :: desc) := by
    rw [dropWhile_cons_of_pos isPySpace_space, dropWhile_cons_of_neg isPySpace_open_paren]
  have hcb : ∀ c ∈ country, (fun c => decide (c ≠ ')')) c = true := by
    intro c hcm
    simpa using hcch c hcm
  have e2 : List.takeWhile (fun c => decide (c ≠ ')'))
      (country ++ ')' :: ' ' :: '-' :: ' ' :: desc) = country :=
    takeWhile_middle hcb (by simp)
  have e3 : List.dropWhile (fun c => decide (c ≠ ')'))
      (country ++ ')' :: ' ' :: '-' :: ' ' :: desc) = ')' :: ' ' :: '-' :: ' ' :: desc :=
    dropWhile_middle hcb (by simp)
  have e4 : List.dropWhile isPySpace (' ' :: '-' :: ' ' :: desc) = '-' :: ' ' :: desc := by
    rw [dropWhile_cons_of_pos isPySpace_space, dropWhile_cons_of_neg isPySpace_dash]
  simp only [parsePriceTail, e1, e2, e3, e4, if_neg hcne]
  rw [hc, stripPy_space_cons hd]

/-- Round trip: re-parsing a serialized parsed record recovers it exactly
(any nonempty digit ordinal may be used), provided the country field is
nonempty, as it is on every well-formed line. -/
theorem parseInventoryLine_roundtrip {line ordinal : Str} {r : InvRecord}
    (h : parseInventoryLine line = some r) (hcne : r.country ≠ [])
    (hord : ordinal ≠ []) (hordd : ∀ c ∈ ordinal, Char.isDigit c = true) :
    parseInventoryLine (serializeRecord ordinal r) = some r := by
  obtain ⟨hn1, hn2, ⟨i, f, hine, hid, hfd, hpr⟩, hc1, hc2, hd1, hd2⟩ :=
    parseInventoryLine_shape h
  -- abbreviations for the serialized segments
  set T8 : Str := r.country ++ ')' :: ' ' :: '-' :: ' ' :: r.desc with hT8
  set T5 : Str := r.price ++ ' ' :: '(' :: T8 with hT5
  set R3 : Str := r.name ++ ' ' :: '-' :: ' ' :: '$' :: T5 with hR3
  have hser : serializeRecord ordinal r = ordinal ++ '.' :: ' ' :: R3 := rfl
  -- no character of the serialized line is a newline
  have hprNl : ∀ c ∈ r.price, c ≠ '\n' := by
    intro c hcm
    rcases hpr with hsh | hsh <;> rw [hsh] at hcm
    · exact fun hcc => absurd (hid c hcm) (by rw [hcc]; decide)
    · rcases List.mem_append.mp hcm with hmi | hmi
      · exact fun hcc => absurd (hid c hmi) (by rw [hcc]; decide)
      · rcases List.mem_cons.mp hmi with rfl | hmi2
        · decide
        · exact fun hcc => absurd (hfd c hmi2) (by rw [hcc]; decide)
  have hguard : (serializeRecord ordinal r).contains '\n' = false := by
    rw [hser]
    have : ¬ ('\n' ∈ ordinal ++ '.' :: ' ' :: R3) := by
      rw [hR3, hT5, hT8]
      intro hmem
      simp only [List.mem_append, List.mem_cons] at hmem
      rcases hmem with hm | hm | hm | hm
      · exact absurd (hordd _ hm) (by decide)
      · exact absurd hm.symm (by decide)
      · exact absurd hm.symm (by decide)
      rcases hm with hm | hm | hm | hm | hm | hm
      · exact (hn2 _ hm).2 rfl
      · exact absurd hm.symm (by decide)
      · exact absurd hm.symm (by decide)
      · exact absurd hm.symm (by decide)
      · exact absurd hm.symm (by decide)
      rcases hm with hm | hm | hm | hm
      · exact hprNl _ hm rfl
      · exact absurd hm.symm (by decide)
      · exact absurd hm.symm (by decide)
      rcases hm with hm | hm | hm | hm | hm | hm
      · exact (hc2 _ hm).2 rfl
      · exact absurd hm.symm (by decide)
      · exact absurd hm.symm (by decide)
      · exact absurd hm.symm (by decide)
      · exact absurd hm.symm (by decide)
      · exact hd2 _ hm rfl
    simpa [List.contains] using this
  -- leading whitespace: the ordinal starts with a digit
  obtain ⟨d0, ds, rfl⟩ : ∃ d0 ds, ordinal = d0 :: ds := by
    rcases ordinal with _ | ⟨d0, ds⟩
    · exact absurd rfl hord
    · exact ⟨d0, ds, rfl⟩
  have e1 : List.dropWhile isPySpace ((d0 :: ds) ++ '.' :: ' ' :: R3) =
      (d0 :: ds) ++ '.' :: ' ' :: R3 := by
    rw [List.cons_append]
    exact dropWhile_cons_of_neg (isPySpace_of_isDigit (hordd d0 (by simp)))
  have e2 : List.takeWhile Char.isDigit ((d0 :: ds) ++ '.' :: ' ' :: R3) = d0 :: ds :=
    takeWhile_middle (fun c hcm => hordd c hcm) (by decide)
  have e3 : List.dropWhile Char.isDigit ((d0 :: ds) ++ '.' :: ' ' :: R3) = '.' :: ' ' :: R3 :=
    dropWhile_middle (fun c hcm => hordd c hcm) (by decide)
  -- the name segment: everything before the first '-'
  have hnb : ∀ c ∈ ' ' :: r.name ++ [' '], (fun c => decide (c ≠ '-')) c = true := by
    intro c hcm
    rcases List.mem_cons.mp hcm with rfl | hm
    · decide
    rcases List.mem_append.mp hm with hm2 | hm2
    · simpa using (hn2 c hm2).1
    · rcases List.mem_cons.mp hm2 with rfl | hm3
      · decide
      · exact absurd hm3 (List.not_mem_nil c)
  have hsegshape : ' ' :: R3 = ((' ' :: r.name) ++ [' ']) ++ '-' :: ' ' :: '$' :: T5 := by
    rw [hR3]
    simp
  have e4 : List.takeWhile (fun c => decide (c ≠ '-')) (' ' :: R3) =
      (' ' :: r.name) ++ [' '] := by
    rw [hsegshape]
    exact takeWhile_middle (by simpa using hnb) (by simp)
  have e5 : List.dropWhile (fun c => decide (c ≠ '-')) (' ' :: R3) =
      '-' :: ' ' :: '$' :: T5 := by
    rw [hsegshape]
    exact dropWhile_middle (by simpa using hnb) (by simp)
  have e4ne : (' ' :: r.name) ++ [' '] ≠ ([] : Str) := by simp
  have e6 : List.dropWhile isPySpace (' ' :: '$' :: T5) = '$' :: T5 := by
    rw [dropWhile_cons_of_pos isPySpace_space, dropWhile_cons_of_neg isPySpace_dollar]
  have hname : stripPy ((' ' :: r.name) ++ [' ']) = r.name := stripPy_pad hn1
  -- now the price, in its two shapes
  rcases hpr with hsh | hsh
  · -- price = i : integer only
    have e7 : List.takeWhile Char.isDigit T5 = i := by
      rw [hT5, hsh]
      exact takeWhile_middle (fun c hcm => hid c hcm) (by decide)
    have e8 : List.dropWhile Char.isDigit T5 = ' ' :: '(' :: T8 := by
      rw [hT5, hsh]
      exact dropWhile_middle (fun c hcm => hid c hcm) (by decide)
    have e7ne : i ≠ ([] : Str) := hine
    have etail := @parsePriceTail_roundtrip r.name r.price _ _
      hc1 hcne (fun c hcm => (hc2 c hcm).1) hd1
    rw [← hT8] at etail
    rw [hser] at hguard
    simp only [parseInventoryLine, hser, hguard, Bool.false_eq_true, if_false, e1, e2, e3,
      if_neg (by simp : ¬ (d0 :: ds) = ([] : Str)), e4, e5, e6, e7, e8,
      if_neg e4ne, if_neg e7ne, hname]
    show parsePriceTail r.name i (' ' :: '(' :: T8) = some r
    rw [← hsh]
    exact etail
  · -- price = i ++ '.' :: f : integer part, dot, fraction part
    have hT5' : T5 = i ++ '.' :: (f ++ ' ' :: '(' :: T8) := by
      rw [hT5, hsh]
      simp
    have e7 : List.takeWhile Char.isDigit T5 = i := by
      rw [hT5']
      exact takeWhile_middle (fun c hcm => hid c hcm) (by decide)
    have e8 : List.dropWhile Char.isDigit T5 = '.' :: (f ++ ' ' :: '(' :: T8) := by
      rw [hT5']
      exact dropWhile_middle (fun c hcm => hid c hcm) (by decide)
    have e9 : List.takeWhile Char.isDigit (f ++ ' ' :: '(' :: T8) = f :=
      takeWhile_middle (fun c hcm => hfd c hcm) (by decide)
    have e10 : List.dropWhile Char.isDigit (f ++ ' ' :: '(' :: T8) = ' ' :: '(' :: T8 :=
      dropWhile_middle (fun c hcm => hfd c hcm) (by decide)
    have e7ne : i ≠ ([] : Str) := hine
    have etail := @parsePriceTail_roundtrip r.name r.price _ _
      hc1 hcne (fun c hcm => (hc2 c hcm).1) hd1
    rw [← hT8] at etail
    rw [hser] at hguard
    simp only [parseInventoryLine, hser, hguard, Bool.false_eq_true, if_false, e1, e2, e3,
      if_neg (by simp : ¬ (d0 :: ds) = ([] : Str)), e4, e5, e6, e7, e8,
      if_neg e4ne, if_neg e7ne, hname]
    show parsePriceTail r.name
      (i ++ '.' :: List.takeWhile Char.isDigit (f ++ ' ' :: '(' :: T8))
      (List.dropWhile Char.isDigit (f ++ ' ' :: '(' :: T8)) = some r
    rw [e9, e10, ← hsh]
    exact etail

/-! ### Keyword/Entity Extractor (app.py `get_valid_search_keywords_from_inventory`) -/

theorem catEntries_lowered (header line : Str) :
    ∀ k ∈ catEntries header line, IsLoweredStr k := by
  intro k hk
  rcases List.mem_map.mp hk with ⟨c, _, rfl⟩
  exact isLoweredStr_pyLower _

theorem parseCatLine_lowered {acc : KeywordCats} (hacc : CatsLowered acc) (line : Str) :
    CatsLowered (parseCatLine acc line) := by
  obtain ⟨h1, h2, h3, h4⟩ := hacc
  simp only [parseCatLine]
  unfold CatsLowered
  split_ifs <;>
    refine ⟨?_, ?_, ?_, ?_⟩ <;>
    first
      | exact catEntries_lowered _ _
      | exact h1
      | exact h2
      | exact h3
      | exact h4

theorem keywordCatsOf_lowered (keywords_text : Str) :
    CatsLowered (keywordCatsOf keywords_text) := by
  unfold keywordCatsOf
  generalize splitOnChar '\n' keywords_text = lines
  have hbase : CatsLowered ⟨[], [], [], []⟩ := by
    refine ⟨?_, ?_, ?_, ?_⟩ <;> (intro k hk; exact absurd hk (List.not_mem_nil k))
  generalize hacc : (⟨[], [], [], []⟩ : KeywordCats) = acc at hbase ⊢
  clear hacc
  induction lines generalizing acc with
  | nil => exact hbase
  | cons l ls ih => exact ih _ (parseCatLine_lowered hbase l)

theorem invLineTokens_names_lowered (line : Str) :
    ∀ n ∈ (invLineTokens line).1, IsLoweredStr n := by
  intro n hn
  simp only [invLineTokens] at hn
  split at hn
  · split at hn
    · split at hn
      · rcases List.mem_cons.mp hn with rfl | hn2
        · exact isLoweredStr_pyLower _
        · exact absurd hn2 (List.not_mem_nil n)
      · exact absurd hn (List.not_mem_nil n)
    · exact absurd hn (List.not_mem_nil n)
  · exact absurd hn (List.not_mem_nil n)

theorem invLineTokens_tokens (line : Str) :
    ∀ w ∈ (invLineTokens line).2, IsLoweredStr w ∧ 4 ≤ w.length := by
  intro w hw
  simp only [invLineTokens] at hw
  split at hw
  · split at hw
    · rcases List.mem_append.mp hw with hw1 | hw2
      · split at hw1
        · have hf := List.mem_filter.mp hw1
          refine ⟨isLoweredStr_of_subset (mem_splitWs hf.1) (isLoweredStr_pyLower _), ?_⟩
          have := of_decide_eq_true hf.2
          omega
        · exact absurd hw1 (List.not_mem_nil w)
      · rcases List.mem_filterMap.mp hw2 with ⟨a, ha, hfa⟩
        split at hfa
        · cases hfa
          refine ⟨?_, by omega⟩
          exact isLoweredStr_of_subset
            (fun c hc => mem_splitWs ha c (stripChars_subset _ _ c hc))
            (isLoweredStr_pyLower _)
        · exact Option.noConfusion hfa
    · exact absurd hw (List.not_mem_nil w)
  · exact absurd hw (List.not_mem_nil w)

theorem foldl_pairAppend_mem {f : Str → List Str × List Str} :
    ∀ {lines : List Str} {acc : List Str × List Str} {x : Str},
      (x ∈ (lines.foldl (fun a l => (a.1 ++ (f l).1, a.2 ++ (f l).2)) acc).1 →
        x ∈ acc.1 ∨ ∃ l ∈ lines, x ∈ (f l).1) ∧
      (x ∈ (lines.foldl (fun a l => (a.1 ++ (f l).1, a.2 ++ (f l).2)) acc).2 →
        x ∈ acc.2 ∨ ∃ l ∈ lines, x ∈ (f l).2) := by
  intro lines
  induction lines with
  | nil =>
      intro acc x
      exact ⟨fun h => Or.inl h, fun h => Or.inl h⟩
  | cons l ls ih =>
      intro acc x
      constructor
      · intro h
        rcases (@ih (acc.1 ++ (f l).1, acc.2 ++ (f l).2) x).1 h with h1 | ⟨l', hl', hx⟩
        · rcases List.mem_append.mp h1 with h2 | h2
          · exact Or.inl h2
          · exact Or.inr ⟨l, by simp, h2⟩
        · exact Or.inr ⟨l', by simp [hl'], hx⟩
      · intro h
        rcases (@ih (acc.1 ++ (f l).1, acc.2 ++ (f l).2) x).2 h with h1 | ⟨l', hl', hx⟩
        · rcases List.mem_append.mp h1 with h2 | h2
          · exact Or.inl h2
          · exact Or.inr ⟨l, by simp, h2⟩
        · exact Or.inr ⟨l', by simp [hl'], hx⟩

theorem invNamesTokens_names_lowered (sec : Str) :
    ∀ n ∈ (invNamesTokens sec).1, IsLoweredStr n := by
  intro n hn
  unfold invNamesTokens at hn
  rcases (foldl_pairAppend_mem (f := invLineTokens)).1 hn with h | ⟨l, _, hx⟩
  · exact absurd h (List.not_mem_nil n)
  · exact invLineTokens_names_lowered l n hx

theorem invNamesTokens_tokens (sec : Str) :
    ∀ w ∈ (invNamesTokens sec).2, IsLoweredStr w ∧ 4 ≤ w.length := by
  intro w hw
  unfold invNamesTokens at hw
  rcases (foldl_pairAppend_mem (f := invLineTokens)).2 hw with h | ⟨l, _, hx⟩
  · exact absurd h (List.not_mem_nil w)
  · exact invLineTokens_tokens l w hx

/-- Every member of the combined keyword vocabulary is lower-cased and at
least three characters long. -/
theorem valid_keywords_lowered_len {text : Str} {res : List Str × KeywordCats}
    (h : get_valid_search_keywords_from_inventory text = some res) :
    ∀ k ∈ res.1, IsLoweredStr k ∧ 3 ≤ k.length := by
  intro k hk
  simp only [get_valid_search_keywords_from_inventory] at h
  split at h
  · cases h
    rcases List.mem_filterMap.mp (mem_pySet.mp hk) with ⟨k0, hk0, hg⟩
    split at hg
    case _ hcond =>
      cases hg
      have hlen : 3 ≤ (stripPy k0).length := by
        have := hcond.2
        omega
      refine ⟨?_, hlen⟩
      have hlow : IsLoweredStr k0 := by
        rcases List.mem_append.mp hk0 with hm | hm
        rotate_left
        · -- member of `list(set(descriptive_words))`
          split at hm
          · exact (invNamesTokens_tokens _ _ (mem_pySet.mp hm)).1
          · exact absurd (mem_pySet.mp hm) (List.not_mem_nil k0)
        rcases List.mem_append.mp hm with hm | hm
        rotate_left
        · -- member of `art_names`
          split at hm
          · exact invNamesTokens_names_lowered _ _ hm
          · exact absurd hm (List.not_mem_nil k0)
        rcases List.mem_append.mp hm with hm | hm
        rotate_left
        · exact (keywordCatsOf_lowered _).2.2.2 _ hm
        rcases List.mem_append.mp hm with hm | hm
        rotate_left
        · exact (keywordCatsOf_lowered _).2.2.1 _ hm
        rcases List.mem_append.mp hm with hm | hm
        · exact (keywordCatsOf_lowered _).1 _ hm
        · exact (keywordCatsOf_lowered _).2.1 _ hm
      exact isLoweredStr_of_subset (stripPy_subset k0) hlow
    · exact Option.noConfusion hg
  · exact Option.noConfusion h

/-! ### The agents.py pipeline -/

theorem sound_append_of {actions : List WebAction} {x : WebAction}
    (hacc : ∀ a ∈ actions, ActionSound a) (hx : ActionSound x) :
    ∀ a ∈ actions ++ [x], ActionSound a := by
  intro a ha
  rcases List.mem_append.mp ha with h | h
  · exact hacc a h
  · rw [List.mem_singleton.mp h]
    exact hx

theorem sound_quick_view (v : Option Str) :
    ActionSound ((("quick_view").data : Str), v) := by
  constructor
  · show (("quick_view").data : Str) ∈ imperativeTypes
    decide
  · intro h
    exact absurd (show (("quick_view").data : Str) = ("navigate").data from h) (by decide)

theorem sound_add_to_cart (v : Option Str) :
    ActionSound ((("add_to_cart").data : Str), v) := by
  constructor
  · show (("add_to_cart").data : Str) ∈ imperativeTypes
    decide
  · intro h
    exact absurd (show (("add_to_cart").data : Str) = ("navigate").data from h) (by decide)

theorem sound_checkout (v : Option Str) :
    ActionSound ((("checkout").data : Str), v) := by
  constructor
  · show (("checkout").data : Str) ∈ imperativeTypes
    decide
  · intro h
    exact absurd (show (("checkout").data : Str) = ("navigate").data from h) (by decide)

theorem sound_navigate {d : Str} (hd : d = ("cart").data ∨ d = ("home").data) :
    ActionSound ((("navigate").data : Str), some d) := by
  constructor
  · show (("navigate").data : Str) ∈ imperativeTypes
    decide
  · intro _
    rcases hd with rfl | rfl
    · exact Or.inl rfl
    · exact Or.inr rfl

theorem agentStepActions_sound {actions : List WebAction} {step : AgentStep}
    (hacc : ∀ a ∈ actions, ActionSound a) :
    ∀ a ∈ agentStepActions actions step, ActionSound a := by
  intro a ha
  simp only [agentStepActions] at ha
  split at ha
  · -- quick_view / quick_view_artwork
    split at ha
    · exact sound_append_of hacc (sound_quick_view _) a ha
    · exact hacc a ha
  · split at ha
    · -- add_to_cart
      split at ha
      · exact sound_append_of hacc (sound_add_to_cart _) a ha
      · exact hacc a ha
    · split at ha
      · -- navigate
        split at ha
        · -- a destination was supplied
          split at ha
          · rename_i d _ hd
            exact sound_append_of hacc (sound_navigate hd) a ha
          · exact hacc a ha
        · exact hacc a ha
      · split at ha
        · -- go_to_cart
          exact sound_append_of hacc (sound_navigate (Or.inl rfl)) a ha
        · split at ha
          · -- go_to_home
            exact sound_append_of hacc (sound_navigate (Or.inr rfl)) a ha
          · split at ha
            · -- proceed_to_checkout / checkout
              exact sound_append_of hacc (sound_checkout _) a ha
            · exact hacc a ha

theorem actionsFromSteps_sound (steps : List AgentStep) :
    ∀ a ∈ actionsFromSteps steps, ActionSound a := by
  unfold actionsFromSteps
  suffices hgen : ∀ (st : List AgentStep) (acc : List WebAction),
      (∀ a ∈ acc, ActionSound a) → ∀ a ∈ st.foldl agentStepActions acc, ActionSound a by
    exact hgen steps [] (fun a ha => absurd ha (List.not_mem_nil a))
  intro st
  induction st with
  | nil => intro acc hacc; exact hacc
  | cons s0 ss ih => intro acc hacc; exact ih _ (agentStepActions_sound hacc)

theorem parseWebActions_sound (text : Str) :
    ∀ a ∈ parseWebActions text, ActionSound a := by
  intro a ha
  simp only [parseWebActions, List.mem_append] at ha
  rcases ha with ((((h | h) | h) | h) | h)
  · split at h
    · rw [List.mem_singleton.mp h]
      exact sound_quick_view _
    · exact absurd h (List.not_mem_nil a)
  · split at h
    · rw [List.mem_singleton.mp h]
      exact sound_add_to_cart _
    · exact absurd h (List.not_mem_nil a)
  · split at h
    · rw [List.mem_singleton.mp h]
      exact sound_navigate (Or.inl rfl)
    · exact absurd h (List.not_mem_nil a)
  · split at h
    · rw [List.mem_singleton.mp h]
      exact sound_navigate (Or.inr rfl)
    · exact absurd h (List.not_mem_nil a)
  · split at h
    · rw [List.mem_singleton.mp h]
      exact sound_checkout _
    · exact absurd h (List.not_mem_nil a)

/-- Dichotomy of the synthesized action list of `_process_message_sync`:
either it is the base list (every member a sound imperative translation of a
step or marker), or the base list was empty of imperatives — hence, being
sound, empty — and the list is exactly the automatic search-plus-scroll
pair. -/
theorem processMessageSync_web_actions {inv : List Str} {o : AgentOracle}
    {s : ArtworkSuggestion} (h : processMessageSync inv o = .ok s) :
    (∀ a ∈ s.web_actions, ActionSound a) ∨
    (∃ term, s.web_actions =
      [((("search").data : Str), some term),
        ((("scroll").data : Str), some (("art-collection").data))]) := by
  simp only [processMessageSync] at h
  split at h
  · exact Except.noConfusion h
  · rename_i output steps hinv
    cases h
    have hbase : ∀ a ∈ (if actionsFromSteps steps = [] then parseWebActions output
        else actionsFromSteps steps), ActionSound a := by
      split
      · exact parseWebActions_sound output
      · exact actionsFromSteps_sound steps
    generalize hB : (if actionsFromSteps steps = [] then parseWebActions output
        else actionsFromSteps steps) = base at hbase ⊢
    split <;>
      (split
       · split
         · -- the automatic append fired: the base list has no imperatives,
           -- so (being sound) it is empty
           rename_i hP hQ
           have hnil : base = [] := by
             cases base with
             | nil => rfl
             | cons x xs =>
                 exfalso
                 apply hP.1
                 exact List.any_eq_true.mpr
                   ⟨x, by simp, decide_eq_true (hbase x (by simp)).1⟩
           rw [hnil]
           exact Or.inr ⟨_, rfl⟩
         · exact Or.inl hbase
       · exact Or.inl hbase)

/-! ### Further lemmas about the validators -/

/-- The keyword selector only ever returns `""` or a vocabulary member. -/
theorem selectKeyword_mem {kws_set : List Str} {raw k : Str}
    (hk : selectKeyword kws_set raw = k) (hne : k ≠ []) : k ∈ kws_set := by
  simp only [selectKeyword] at hk
  split at hk
  · -- the raw keyword is a member of the vocabulary
    rename_i hmem
    split at hk
    · split at hk
      case _ k' hf =>
        cases hk
        exact List.mem_of_find?_eq_some hf
      case _ => exact absurd hk.symm hne
    · exact hk ▸ hmem
  · split at hk
    · split at hk
      case _ k' hf =>
        cases hk
        exact List.mem_of_find?_eq_some hf
      case _ => exact absurd hk.symm hne
    · exact absurd hk.symm hne

/-- For a nonempty candidate and a vocabulary without the empty string, the
keyword selector of app.py agrees with the spec-level three-stage
validator. -/
theorem selectKeyword_eq_validateSpec {kws_set : List Str} {raw : Str}
    (hraw : raw ≠ []) (hnil : ([] : Str) ∉ kws_set) :
    (if selectKeyword kws_set raw = [] then none else some (selectKeyword kws_set raw)) =
      validateSpec kws_set raw := by
  by_cases hmem : raw ∈ kws_set
  · have h1 : selectKeyword kws_set raw = raw := by
      simp only [selectKeyword]
      rw [if_pos hmem, if_neg (by intro hc; exact hraw hc.1)]
    rw [h1, if_neg hraw]
    simp only [validateSpec]
    rw [if_pos hmem]
  · have h0 : (if raw ∈ kws_set then raw else ([] : Str)) = [] := by rw [if_neg hmem]
    cases hf : kws_set.find? (fun k => containsSub k raw || containsSub raw k) with
    | some k' =>
        have h1 : selectKeyword kws_set raw = k' := by
          simp only [selectKeyword]
          rw [h0, if_pos ⟨rfl, hraw⟩, hf]
        have hk'ne : k' ≠ [] := by
          intro hc
          exact hnil (hc ▸ List.mem_of_find?_eq_some hf)
        rw [h1, if_neg hk'ne]
        simp only [validateSpec]
        rw [if_neg hmem, hf]
    | none =>
        have h1 : selectKeyword kws_set raw = [] := by
          simp only [selectKeyword]
          rw [h0, if_pos ⟨rfl, hraw⟩, hf]
        rw [h1, if_pos rfl]
        simp only [validateSpec]
        rw [if_neg hmem, hf]

/-- `parse_search_triggers` validates the extracted search term by exactly
the staged validator: the emitted list is the search/scroll pair for the
winning keyword when the three-stage validation accepts, and empty when it
rejects. -/
theorem parse_search_triggers_validate (v : List Str) (t : Str) :
    parse_search_triggers v t =
      (if containsSub t (("SEARCH_TRIGGER:").data) = true then
        match (splitOnChar '\n' t).find?
            (fun l => containsSub l (("SEARCH_TRIGGER:").data)) with
        | some line =>
            match validateSpec v (searchTermOf line) with
            | some best =>
                [((("search").data : Str), some best),
                  ((("scroll").data : Str), some (("art-collection").data))]
            | none => []
        | none => []
      else []) := by
  simp only [parse_search_triggers]
  split
  · split
    case _ line hf =>
      by_cases hm : searchTermOf line ∈ v
      · rw [if_pos hm]
        simp only [validateSpec]
        rw [if_pos hm]
      · rw [if_neg hm]
        simp only [validateSpec]
        rw [if_neg hm]
    case _ => rfl
  · rfl

/-! ### Claim theorems -/

/-- C1 (counterexample): the claim asserts that every artwork name placed in
`suggested_artworks` exists in the inventory record set.  In the agents.py
pipeline, `_extract_suggested_artworks` performs no inventory validation:
with inventory `["Golden Gaze"]` and an extraction reply `"Fake Artwork"`,
the pipeline returns `names = ["Fake Artwork"]` (which main.py sends as
`suggested_artworks`) and even emits a Search action for it, although
`"Fake Artwork"` is not an inventory name. -/
theorem c1_grounding_counterexample :
    processMessageSync [("Golden Gaze").data]
      ⟨.ok (("Here you go!").data, []), .ok (("art_suggestion").data),
        .ok (("Fake Artwork").data)⟩ =
      .ok ⟨[("Fake Artwork").data], ("art_suggestion").data, ("Here you go!").data,
        [((("search").data : Str), some (("fake artwork").data)),
          ((("scroll").data : Str), some (("art-collection").data))]⟩ ∧
    (("Fake Artwork").data) ∉ [("Golden Gaze").data] :=
  ⟨rfl, by decide⟩

/-- C1 (amended): the keyword validator of app.py only ever yields a member
of the supplied vocabulary, and every artwork name stored by the utils.py
search tool (hence placed in `suggested_artworks` by that pipeline) is a
member of the inventory name list; the agents.py extraction path, however,
does not validate its names against the inventory. -/
theorem c1_grounding_amended :
    (∀ (kws_set : List Str) (raw k : Str),
      selectKeyword kws_set raw = k → k ≠ [] → k ∈ kws_set) ∧
    (∀ (inventory_names : List Str) (out : SearchOutcome) (n : Str),
      n ∈ searchToolLastArtworks inventory_names out → n ∈ inventory_names) := by
  constructor
  · intro kws raw k hk hne
    exact selectKeyword_mem hk hne
  · intro inv out n hn
    cases out with
    | llmError e => exact absurd hn (List.not_mem_nil n)
    | jsonError => exact absurd hn (List.not_mem_nil n)
    | parsed r af =>
        simp only [searchToolLastArtworks] at hn
        have h1 := List.mem_of_mem_take hn
        have h2 := List.mem_filter.mp h1
        exact of_decide_eq_true h2.2

/-- C1 (witness): the amended theorem applied at concrete inputs. -/
theorem c1_grounding_witness :
    (("blue").data : Str) ∈ [("blue").data] ∧
    (("Golden Gaze").data : Str) ∈ [("Golden Gaze").data] := by
  constructor
  · exact c1_grounding_amended.1 [("blue").data] (("blue").data) (("blue").data) rfl
      (by decide)
  · exact c1_grounding_amended.2 [("Golden Gaze").data]
      (.parsed (("found").data) (.list [("Golden Gaze").data])) (("Golden Gaze").data)
      (by decide)

/-- C2 (counterexample): the claim asserts that the same two-stage match is
applied to every artwork name the model proposes.  The utils.py search tool
validates artwork names by exact (case-sensitive) membership only: the
candidate `"golden"` against inventory `["golden gaze"]` is dropped by the
tool, while the two-stage match of the claim accepts it by substring
fallback. -/
theorem c2_two_stage_counterexample :
    searchToolLastArtworks [("golden gaze").data]
      (.parsed (("found some").data) (.list [("golden").data])) = [] ∧
    validateSpec [("golden gaze").data] (("golden").data) = some (("golden gaze").data) :=
  ⟨rfl, rfl⟩

/-- C2 (amended): both app.py keyword validation paths proceed in exactly
the claimed stages — exact membership accepts the candidate as-is, otherwise
the first vocabulary entry in iteration order with substring containment in
either direction, otherwise rejection.  The chat second pass
(`selectKeyword`) agrees with the staged validator for every nonempty
candidate over a vocabulary without the empty string, and
`parse_search_triggers` validates every extracted search term by the staged
validator, emitting the search/scroll pair on acceptance and nothing on
rejection; the utils.py artwork-name filter, however, uses exact membership
only. -/
theorem c2_two_stage_amended :
    (∀ (kws_set : List Str) (raw : Str), raw ≠ [] → ([] : Str) ∉ kws_set →
      (if selectKeyword kws_set raw = [] then none
        else some (selectKeyword kws_set raw)) = validateSpec kws_set raw) ∧
    (∀ (v : List Str) (t : Str),
      parse_search_triggers v t =
        (if containsSub t (("SEARCH_TRIGGER:").data) = true then
          match (splitOnChar '\n' t).find?
              (fun l => containsSub l (("SEARCH_TRIGGER:").data)) with
          | some line =>
              match validateSpec v (searchTermOf line) with
              | some best =>
                  [((("search").data : Str), some best),
                    ((("scroll").data : Str), some (("art-collection").data))]
              | none => []
          | none => []
        else [])) :=
  ⟨fun _ _ hraw hnil => selectKeyword_eq_validateSpec hraw hnil,
    parse_search_triggers_validate⟩

/-- C2 (witness): the amended theorem applied at concrete inputs — the chat
second pass where the substring fallback fires, and a response whose
`SEARCH_TRIGGER:` term is accepted by partial match. -/
theorem c2_two_stage_witness :
    ((if selectKeyword [("blue").data] (("blu").data) = [] then none
      else some (selectKeyword [("blue").data] (("blu").data))) =
      validateSpec [("blue").data] (("blu").data)) ∧
    parse_search_triggers [("golden gaze").data]
        (("SEARCH_TRIGGER: golden").data) =
      [((("search").data : Str), some (("golden gaze").data)),
        ((("scroll").data : Str), some (("art-collection").data))] :=
  ⟨c2_two_stage_amended.1 [("blue").data] (("blu").data) (by decide) (by decide),
    (c2_two_stage_amended.2 [("golden gaze").data]
      (("SEARCH_TRIGGER: golden").data)).trans (by decide)⟩

/-- C3 (counterexample): the claim asserts that an explicit imperative tool
call among the recorded steps suppresses the automatic Search action.  A
recorded `navigate` call whose destination is invalid (here
`"checkout-page"`) is dropped by `_actions_from_steps`, so the imperative
guard sees no imperative action and the Search action is appended anyway. -/
theorem c3_priority_counterexample :
    processMessageSync [("Golden Gaze").data]
      ⟨.ok (("Try Golden Gaze!").data,
        [⟨("navigate").data, .dict none (some (("checkout-page").data)) none⟩]),
        .ok (("art_suggestion").data), .ok (("Golden Gaze").data)⟩ =
      .ok ⟨[("Golden Gaze").data], ("art_suggestion").data, ("Try Golden Gaze!").data,
        [((("search").data : Str), some (("golden gaze").data)),
          ((("scroll").data : Str), some (("art-collection").data))]⟩ ∧
    ((("search").data : Str), some (("golden gaze").data)) ∈
      [((("search").data : Str), some (("golden gaze").data)),
        ((("scroll").data : Str), some (("art-collection").data))] :=
  ⟨rfl, by decide⟩

/-- C3 (amended): if an explicit imperative web action — a recorded
imperative tool step that survived validation (nonempty artwork name,
destination in `{cart, home}`) — is among the synthesized actions, then the
action list contains no Search action at all. -/
theorem c3_priority_amended :
    ∀ (inv : List Str) (o : AgentOracle) (s : ArtworkSuggestion),
      processMessageSync inv o = .ok s →
      (∃ a ∈ s.web_actions, a.1 ∈ imperativeTypes) →
      ∀ a ∈ s.web_actions, a.1 ≠ ("search").data := by
  intro inv o s h himp a ha hsearch
  rcases processMessageSync_web_actions h with hall | ⟨term, hW⟩
  · have h1 := (hall a ha).1
    rw [hsearch] at h1
    exact absurd h1 (by decide)
  · rcases himp with ⟨b, hb, hbimp⟩
    rw [hW] at hb
    rcases List.mem_cons.mp hb with rfl | hb2
    · exact absurd (show (("search").data : Str) ∈ imperativeTypes from hbimp) (by decide)
    · rcases List.mem_cons.mp hb2 with rfl | hb3
      · exact absurd (show (("scroll").data : Str) ∈ imperativeTypes from hbimp) (by decide)
      · exact absurd hb3 (List.not_mem_nil b)

/-- C3 (witness): the amended theorem applied to a run whose recorded
`add_to_cart` step survives into the action list. -/
theorem c3_priority_witness :
    ((("add_to_cart").data : Str), some (("Golden Gaze").data)).1 ≠ ("search").data :=
  c3_priority_amended []
    ⟨.ok (("Added!").data,
      [⟨("add_to_cart").data, .dict (some (("Golden Gaze").data)) none none⟩]),
      .ok (("general_info").data), .ok (("NONE").data)⟩
    ⟨[], ("general_info").data, ("Added!").data,
      [((("add_to_cart").data : Str), some (("Golden Gaze").data))]⟩
    rfl
    ⟨((("add_to_cart").data : Str), some (("Golden Gaze").data)), by decide, by decide⟩
    ((("add_to_cart").data : Str), some (("Golden Gaze").data)) (by decide)

/-- C4 (code bug): the claim says a failed LLM invocation never propagates
out of message processing.  In agents.py `_process_message_sync` the
`except` branch builds an apology but `result` stays unbound, so line 348
raises `NameError`, which propagates; the sibling utils.py
`process_message` (whole body inside `try`) does return the degraded
result the claim describes. -/
theorem c4_llm_failure_bug :
    processMessageSync [("Golden Gaze").data]
      ⟨.error (("Request timed out").data), .error (("Request timed out").data),
        .error (("Request timed out").data)⟩ = .error .nameError ∧
    utilsProcessMessage [] (.error (("Request timed out").data)) =
      ⟨[], ("general_info").data, ("I encountered an error: Request timed out").data, []⟩ :=
  ⟨rfl, rfl⟩

/-- C5: the fallback (non-LLM) intent classification never returns `both`;
it returns `art_suggestion` exactly when the reply contains
(case-insensitively, as a substring) one of the first thirty inventory
artwork names, and otherwise returns `general_info`. -/
theorem c5_fallback_classifier :
    ∀ (artwork_names : List Str) (response : Str),
      classifyIntentFallback artwork_names response ≠ ("both").data ∧
      (classifyIntentFallback artwork_names response = ("art_suggestion").data ↔
        ∃ n ∈ artwork_names.take 30, pyLower n <:+: pyLower response) ∧
      (classifyIntentFallback artwork_names response = ("art_suggestion").data ∨
        classifyIntentFallback artwork_names response = ("general_info").data) := by
  intro names resp
  simp only [classifyIntentFallback]
  by_cases hc :
      ((names.take 30).any (fun n => containsSub (pyLower resp) (pyLower n))) = true
  · rw [if_pos hc]
    refine ⟨by decide, ?_, Or.inl rfl⟩
    constructor
    · intro _
      rcases List.any_eq_true.mp hc with ⟨n, hn, hcont⟩
      exact ⟨n, hn, containsSub_iff.mp hcont⟩
    · intro _
      rfl
  · rw [if_neg hc]
    refine ⟨by decide, ?_, Or.inr rfl⟩
    constructor
    · intro hgi
      exact absurd hgi (by decide)
    · intro ⟨n, hn, hinf⟩
      exact absurd (List.any_eq_true.mpr
        ⟨n, hn, (@containsSub_iff (pyLower resp) (pyLower n)).mpr hinf⟩) hc

/-- C6: a chat request whose `message` field (and its `text` synonym) is
missing or empty is rejected with the no-message error by all three
handlers, before any LLM call (the result does not depend on the oracle),
and the assistant state is returned unchanged. -/
theorem c6_empty_message_guard :
    ∀ (mem mem2 inv lastSearch : List Str) (o : AgentOracle)
      (plannerResult : Except Str (Str × List UtilsStep)) (kws : List Str)
      (ao : AppOracle) (d : ChatRequest),
      (d.message = none ∨ d.message = some []) →
      (d.text = none ∨ d.text = some []) →
      mainChatHandler mem inv o (some d) =
        (.badRequest (("No message provided").data), mem) ∧
      lambdaChatHandler mem2 lastSearch plannerResult (some d) =
        ({ statusCode := 400, success := false,
           error := some (("Missing \x27message\x27 in body").data), body := none }, mem2) ∧
      appChat kws ao (some d) = .err 400 (("No message provided").data) := by
  intro mem mem2 inv lastSearch o pr kws ao d hm ht
  refine ⟨?_, ?_, ?_⟩
  · simp only [mainChatHandler]
    rcases hm with hm | hm <;> (rw [hm]; try rfl)
  · simp only [lambdaChatHandler]
    rcases hm with hm | hm <;> rcases ht with ht | ht <;> (rw [hm, ht]; try rfl)
  · simp only [appChat]
    rcases hm with hm | hm <;> (rw [hm]; try rfl)

/-- C6 (witness): the guard theorem applied at a concrete empty-message
request and concrete oracles. -/
theorem c6_empty_message_witness :
    mainChatHandler [("hi").data] [] ⟨.ok (("x").data, []), .ok (("x").data),
        .ok (("x").data)⟩ (some ⟨some [], none⟩) =
      (.badRequest (("No message provided").data), [("hi").data]) ∧
    lambdaChatHandler [("hi").data] [] (.ok (("x").data, [])) (some ⟨some [], none⟩) =
      ({ statusCode := 400, success := false,
         error := some (("Missing \x27message\x27 in body").data), body := none },
        [("hi").data]) ∧
    appChat [] ⟨.ok (("x").data), .ok (("x").data)⟩ (some ⟨some [], none⟩) =
      .err 400 (("No message provided").data) :=
  c6_empty_message_guard [("hi").data] [("hi").data] [] []
    ⟨.ok (("x").data, []), .ok (("x").data), .ok (("x").data)⟩
    (.ok (("x").data, [])) [] ⟨.ok (("x").data), .ok (("x").data)⟩
    ⟨some [], none⟩ (Or.inr rfl) (Or.inl rfl)

/-- C7 (counterexample): the claim asserts that in every pipeline variant a
Navigate action reaching the emitted list has destination `cart` or `home`.
The utils.py pipeline forwards any nonempty destination unvalidated: a
recorded `navigate` step with destination `"checkout-page"` yields a
Navigate action with that destination. -/
theorem c7_navigate_counterexample :
    utilsProcessMessage []
      (.ok (("Done").data,
        [⟨("navigate").data, none, some (("checkout-page").data), none,
          ("Navigating to checkout-page.").data⟩])) =
      ⟨[], ("general_info").data, ("Done").data,
        [((("navigate").data : Str), some (("checkout-page").data))]⟩ ∧
    (("checkout-page").data : Str) ≠ ("cart").data ∧
    (("checkout-page").data : Str) ≠ ("home").data :=
  ⟨rfl, by decide, by decide⟩

/-- C7 (amended): in the agents.py pipeline every emitted Navigate action
has destination `cart` or `home` (`_actions_from_steps` drops other
destinations); the utils.py pipeline forwards the proposed destination
unvalidated. -/
theorem c7_navigate_amended :
    ∀ (inv : List Str) (o : AgentOracle) (s : ArtworkSuggestion),
      processMessageSync inv o = .ok s →
      ∀ a ∈ s.web_actions, a.1 = ("navigate").data →
        a.2 = some (("cart").data) ∨ a.2 = some (("home").data) := by
  intro inv o s h a ha hnav
  rcases processMessageSync_web_actions h with hall | ⟨term, hW⟩
  · exact (hall a ha).2 hnav
  · rw [hW] at ha
    rcases List.mem_cons.mp ha with rfl | ha2
    · exact absurd (show (("search").data : Str) = ("navigate").data from hnav) (by decide)
    · rcases List.mem_cons.mp ha2 with rfl | ha3
      · exact absurd (show (("scroll").data : Str) = ("navigate").data from hnav) (by decide)
      · exact absurd ha3 (List.not_mem_nil a)

/-- C7 (witness): the amended theorem applied to a run with a valid
`navigate` step. -/
theorem c7_navigate_witness :
    ((("navigate").data : Str), some (("cart").data)).2 = some (("cart").data) ∨
    ((("navigate").data : Str), some (("cart").data)).2 = some (("home").data) :=
  c7_navigate_amended []
    ⟨.ok (("Heading to the cart.").data,
      [⟨("navigate").data, .dict none (some (("cart").data)) none⟩]),
      .ok (("general_info").data), .ok (("NONE").data)⟩
    ⟨[], ("general_info").data, ("Heading to the cart.").data,
      [((("navigate").data : Str), some (("cart").data))]⟩
    rfl
    ((("navigate").data : Str), some (("cart").data)) (by decide) rfl

/-- C8: every member of the keyword vocabulary built from an inventory text
is lower-cased and at least three characters long, and every
artwork-name/description token is additionally drawn only from words of at
least four characters. -/
theorem c8_vocabulary_invariant :
    ∀ (inventory_text : Str) (res : List Str × KeywordCats),
      get_valid_search_keywords_from_inventory inventory_text = some res →
      (∀ k ∈ res.1, IsLoweredStr k ∧ 3 ≤ k.length) ∧
      (∀ sec : Str, ∀ w ∈ (invNamesTokens sec).2, IsLoweredStr w ∧ 4 ≤ w.length) := by
  intro text res h
  exact ⟨valid_keywords_lowered_len h, fun sec w hw => invNamesTokens_tokens sec w hw⟩

/-- C8 (witness): the invariant applied to a concrete inventory text. -/
theorem c8_vocabulary_witness :
    IsLoweredStr (("japan").data) ∧ 3 ≤ (("japan").data).length :=
  (c8_vocabulary_invariant (("=== SEARCH KEYWORDS ===\nCountries: Japan").data)
    ([("japan").data], ⟨[("japan").data], [], [], []⟩) rfl).1 (("japan").data) (by decide)

/-- C9: parsing a well-formed inventory line (one the parser accepts, with a
nonempty country field) and re-serializing the record into the canonical
line format yields a line that parses back to the same name, price and
country (indeed the same record). -/
theorem c9_round_trip :
    ∀ (line ordinal : Str) (r : InvRecord),
      parseInventoryLine line = some r → r.country ≠ [] →
      ordinal ≠ [] → (∀ c ∈ ordinal, Char.isDigit c = true) →
      parseInventoryLine (serializeRecord ordinal r) = some r :=
  fun _ _ _ h h2 h3 h4 => parseInventoryLine_roundtrip h h2 h3 h4

/-- C9 (witness): the round trip on a concrete inventory line. -/
theorem c9_round_trip_witness :
    parseInventoryLine (serializeRecord (("3").data)
      ⟨("Golden Gaze").data, ("2500.0").data, ("Japan").data,
        ("A luminous portrait.").data⟩) =
    some ⟨("Golden Gaze").data, ("2500.0").data, ("Japan").data,
      ("A luminous portrait.").data⟩ :=
  c9_round_trip (("3. Golden Gaze - $2500.0 (Japan) - A luminous portrait.").data)
    (("3").data)
    ⟨("Golden Gaze").data, ("2500.0").data, ("Japan").data, ("A luminous portrait.").data⟩
    rfl (by decide) (by decide) (by decide)

/-- C10: after every invocation of the inventory search tool, whatever the
LLM proposed, the stored list of validated search artworks holds at most
six names. -/
theorem c10_search_tool_limit :
    ∀ (inventory_names : List Str) (out : SearchOutcome),
      (searchToolLastArtworks inventory_names out).length ≤ 6 := by
  intro inv out
  cases out with
  | llmError e => exact Nat.zero_le 6
  | jsonError => exact Nat.zero_le 6
  | parsed r af =>
      simp only [searchToolLastArtworks]
      rw [List.length_take]
      exact min_le_left _ _

end Artisty
